import Mathlib

/-!
Shallow embedding of the booking backend (`src/api/index.js`): the time-matrix
normalizer, the token cache, the payment-gated booking state machine
(create-booking / mollie-webhook / finalize-booking-after-payment), and the
availability resolver (service-availability and category-availability).

JavaScript values that the code only inspects for truthiness and string
content are modelled as `Option String` / `Option Int` / `Option Nat`, with
`none` standing for `undefined`/`null` and JS falsiness of `""` and `0` made
explicit via the `truthy` helpers below.
-/

set_option maxRecDepth 20000

namespace Booking

/-- JS truthiness for an optional string: `undefined`, `null` and `""` are falsy. -/
def truthyS : Option String → Bool
  | some s => s ≠ ""
  | none => false

/-- JS truthiness for an optional integer: `undefined`, `null` and `0` are falsy. -/
def truthyI : Option Int → Bool
  | some n => n ≠ 0
  | none => false

/-- JS truthiness for an optional natural number (used for `payment.amount`). -/
def truthyN : Option Nat → Bool
  | some n => n ≠ 0
  | none => false

/-- JS `a || b` on optional strings: `a` when truthy, otherwise `b` verbatim. -/
def jsOrS (a b : Option String) : Option String :=
  if truthyS a then a else b

/-- JS `a || b` on optional integers: `a` when truthy, otherwise `b` verbatim. -/
def jsOrI (a b : Option Int) : Option Int :=
  if truthyI a then a else b

/-! ### String utilities

JS compares strings by code units and `Array.prototype.sort()` without a
comparator sorts strings lexicographically ascending.  `listLeB`/`strLe` embed
that order (identical to code-unit order on the ASCII data handled here); it
is defined over the character list so that proofs and concrete evaluation
reduce in the kernel. -/

def listLeB : List Char → List Char → Bool
  | [], _ => true
  | _ :: _, [] => false
  | a :: as, b :: bs => if a < b then true else if b < a then false else listLeB as bs

/-- Lexicographic `≤` on strings (the order JS `sort()` uses). -/
def strLe (a b : String) : Prop := listLeB a.data b.data = true

instance : DecidableRel strLe := fun a b =>
  inferInstanceAs (Decidable (listLeB a.data b.data = true))

theorem listLeB_total (a : List Char) : ∀ b, listLeB a b = true ∨ listLeB b a = true := by
  induction a with
  | nil => intro b; left; rfl
  | cons x xs ih =>
    intro b
    cases b with
    | nil => right; rfl
    | cons y ys =>
      simp only [listLeB]
      rcases lt_trichotomy x y with h | h | h
      · left; simp [h]
      · subst h
        simp only [lt_irrefl, if_false]
        exact ih ys
      · right; simp [h, not_lt_of_gt h]

theorem listLeB_trans (a : List Char) :
    ∀ b c, listLeB a b = true → listLeB b c = true → listLeB a c = true := by
  induction a with
  | nil => intro b c _ _; rfl
  | cons x xs ih =>
    intro b c h₁ h₂
    cases b with
    | nil => simp [listLeB] at h₁
    | cons y ys =>
      cases c with
      | nil => simp [listLeB] at h₂
      | cons z zs =>
        simp only [listLeB] at h₁ h₂ ⊢
        by_cases hxy : x < y
        · by_cases hyz : y < z
          · simp [lt_trans hxy hyz]
          · by_cases hzy : z < y
            · simp [hyz, hzy] at h₂
            · have hyzeq : y = z := le_antisymm (not_lt.mp hzy) (not_lt.mp hyz)
              subst hyzeq
              simp [hxy]
        · by_cases hyx : y < x
          · simp [hxy, hyx] at h₁
          · have hxyeq : x = y := le_antisymm (not_lt.mp hyx) (not_lt.mp hxy)
            subst hxyeq
            simp only [lt_irrefl, if_false] at h₁
            by_cases hxz : x < z
            · simp [hxz]
            · by_cases hzx : z < x
              · simp [hxz, hzx] at h₂
              · have hxzeq : x = z := le_antisymm (not_lt.mp hzx) (not_lt.mp hxz)
                subst hxzeq
                simp only [lt_irrefl, if_false] at h₂ ⊢
                exact ih ys zs h₁ h₂

instance : IsTotal String strLe := ⟨fun a b => listLeB_total a.data b.data⟩

instance : IsTrans String strLe := ⟨fun a b c => listLeB_trans a.data b.data c.data⟩

/-- Embedding of JS `Array.prototype.sort()` on an array of strings. -/
def sortStr (l : List String) : List String := List.insertionSort strLe l

/-! ### `normalizeTimeMatrix` (src/api/index.js lines 166-192) -/

/-- One element of a per-date slot list in the upstream start-time matrix:
either a plain time string, or an object carrying optional `time` /
`start_time` fields, or some other value (JS would map it to `undefined`). -/
inductive SlotEntry
  | str (s : String)
  | obj (time start_time : Option String)
  | other
  deriving Repr, DecidableEq

/-- The per-date value of the upstream matrix: an array of entries, a nested
object whose values are arrays of entries (`Object.values(times).flat()` only
looks at the values, so keys are dropped), or any other value (treated as no
slots by the source). -/
inductive MatrixValue
  | arr (entries : List SlotEntry)
  | nested (groups : List (List SlotEntry))
  | other
  deriving Repr, DecidableEq

/-- `t => typeof t === 'string' ? t : (t?.time || t?.start_time)`. -/
def entryTime : SlotEntry → Option String
  | .str s => some s
  | .obj time start_time => jsOrS time start_time
  | .other => none

/-- The raw slot list the source builds before mapping/filtering:
array as-is, nested object flattened one level, anything else empty. -/
def rawSlots : MatrixValue → List SlotEntry
  | .arr entries => entries
  | .nested groups => groups.flatten
  | .other => []

/-- `.filter(Boolean)` over the mapped entries: drop `undefined` and `""`. -/
def filterTruthy : List (Option String) → List String
  | [] => []
  | some s :: rest => if s = "" then filterTruthy rest else s :: filterTruthy rest
  | none :: rest => filterTruthy rest

/-- The filtered time-string list for one per-date matrix value. -/
def slotTimes (v : MatrixValue) : List String :=
  filterTruthy ((rawSlots v).map entryTime)

/-- One entry of the availability answer: `{date, times, available_slots}`. -/
structure AvailWindow where
  date : String
  times : List String
  available_slots : Nat
  deriving Repr, DecidableEq

/-- `normalizeTimeMatrix`: for each `(date, times)` entry of the matrix object
extract the slot strings, and when non-empty emit `{date, times: slots.sort(),
available_slots: slots.length}`.  JS `Array.prototype.sort()` on strings is
lexicographic ascending, embedded as `List.insertionSort (· ≤ ·)`. -/
def normalizeTimeMatrix (matrix : List (String × MatrixValue)) : List AvailWindow :=
  matrix.filterMap fun p =>
    let slots := slotTimes p.2
    if slots.length > 0 then
      some ⟨p.1, sortStr slots, slots.length⟩
    else none

/-! ### Token cache (`getSimplyBookTokenCached`, src/api/index.js lines 250-281) -/

/-- The module-level `tokenCache` object `{token, fetchedAt, ttlMs}`. -/
structure TokenCache where
  token : Option String
  fetchedAt : Nat
  ttlMs : Nat
  deriving Repr, DecidableEq

/-- Outcome of the upstream `getToken` login call: `.ok t` models a response
whose `result` field is a truthy token `t`; `.fail` models a network failure or
a response without a token (the source throws in both cases, before touching
the cache). -/
inductive LoginResult
  | ok (token : String)
  | fail
  deriving Repr, DecidableEq

/-- The upstream calls the embedded handlers can issue, recorded as a trace. -/
inductive UpstreamCall
  | login
  | startTimeMatrix (dateFrom dateTo : String) (serviceId : Int)
  | eventListPublic (dateFrom dateTo : String)
  | getPayment (paymentId : String)
  | book
  | createPaymentSession
  deriving Repr, DecidableEq

/-- `let tokenCache = { token: null, fetchedAt: 0, ttlMs: 1000 * 60 * 50 }`. -/
def initialTokenCache : TokenCache := ⟨none, 0, 1000 * 60 * 50⟩

/-- `getSimplyBookTokenCached`: return the cached token when it is truthy and
`now - fetchedAt < ttlMs`; otherwise perform the login call and, on success,
store the token with a fresh timestamp; a failed login leaves the cache
untouched and surfaces as a thrown error. -/
def getSimplyBookTokenCached (st : TokenCache) (now : Nat) (login : LoginResult) :
    Except Unit String × List UpstreamCall × TokenCache :=
  if truthyS st.token = true ∧ now - st.fetchedAt < st.ttlMs then
    (Except.ok (st.token.getD ""), [], st)
  else
    match login with
    | .ok t => (Except.ok t, [.login], { st with token := some t, fetchedAt := now })
    | .fail => (Except.error (), [.login], st)

/-! ### Payment-gated booking state
(`pendingBookingsByPaymentId`, `processedPayments`, src/api/index.js lines
42-43, and the handlers at lines 832-894 and 1204-1292) -/

/-- The caller's `clientData` object; only the fields the handlers test
(`email`, `full_name`) are modelled. -/
structure ClientData where
  email : Option String
  full_name : Option String
  deriving Repr, DecidableEq

/-- The `bookingRequest` record stored in `pendingBookingsByPaymentId`:
`{serviceId, performerId, datetime, clientData, additionalFields}` (the opaque
`additionalFields` payload is not modelled). -/
structure BookingRequest where
  serviceId : Int
  performerId : Option Int
  datetime : String
  clientData : ClientData
  deriving Repr, DecidableEq

/-- The module-level in-memory payment state: the pending-bookings `Map`
(insertion-ordered association list) and the processed-payments `Set`. -/
structure PayState where
  pendingBookingsByPaymentId : List (String × BookingRequest)
  processedPayments : List String
  deriving Repr, DecidableEq

/-- `Map.prototype.get`. -/
def mapGet (m : List (String × BookingRequest)) (k : String) : Option BookingRequest :=
  (m.find? fun p => p.1 = k).map Prod.snd

/-- `Map.prototype.set`: update the existing key in place, else append. -/
def mapSet (m : List (String × BookingRequest)) (k : String) (v : BookingRequest) :
    List (String × BookingRequest) :=
  if m.any (fun p => p.1 = k) then m.map fun p => if p.1 = k then (k, v) else p
  else m ++ [(k, v)]

/-- `Set.prototype.add`. -/
def setAdd (s : List String) (x : String) : List String :=
  if x ∈ s then s else s ++ [x]

/-- The Mollie payment object, of which only `status` is inspected. -/
structure Payment where
  status : String
  deriving Repr, DecidableEq

/-- Outcome of `mollieClient.payments.get(paymentId)`: the client threw, the
payment resolved to a falsy value, or a payment object was returned. -/
inductive PaymentLookup
  | threw
  | notFound
  | found (p : Payment)
  deriving Repr, DecidableEq

/-- Outcome of `createSimplyBookBooking(bookingRequest)`, abstracted as a
single upstream booking interaction: it either returns or throws. -/
inductive BookResult
  | ok
  | threw
  deriving Repr, DecidableEq

/-- Responses of `POST /api/finalize-booking-after-payment`. -/
inductive FinalizeResponse
  | missingPaymentId                 -- 400 "paymentId is required"
  | alreadyProcessed                 -- 200 {success:true, already_processed:true}
  | paymentNotFound                  -- 404
  | paymentNotPaid (status : String) -- 400 "Payment not paid"
  | noPendingBooking                 -- 400 "No pending booking attached"
  | booked                           -- 200 {success:true, ...booking details}
  | serverError                      -- 500 (outer catch)
  deriving Repr, DecidableEq

/-- `POST /api/finalize-booking-after-payment` (src/api/index.js 861-894). -/
def finalizeBookingAfterPayment (st : PayState) (paymentId : Option String)
    (lookup : PaymentLookup) (book : BookResult) :
    FinalizeResponse × PayState × List UpstreamCall :=
  if truthyS paymentId = false then (.missingPaymentId, st, [])
  else
    let pid := paymentId.getD ""
    if pid ∈ st.processedPayments then (.alreadyProcessed, st, [])
    else
      match lookup with
      | .threw => (.serverError, st, [.getPayment pid])
      | .notFound => (.paymentNotFound, st, [.getPayment pid])
      | .found p =>
        if p.status ≠ "paid" then (.paymentNotPaid p.status, st, [.getPayment pid])
        else
          match mapGet st.pendingBookingsByPaymentId pid with
          | none => (.noPendingBooking, st, [.getPayment pid])
          | some _ =>
            match book with
            | .threw => (.serverError, st, [.getPayment pid, .book])
            | .ok =>
              (.booked,
               { st with processedPayments := setAdd st.processedPayments pid },
               [.getPayment pid, .book])

/-- Responses of `POST /api/mollie-webhook`. -/
inductive WebhookResponse
  | missingPaymentId                 -- 400 "Missing payment id"
  | alreadyProcessed                 -- 200 "Already processed"
  | paymentNotFound                  -- 404
  | ignoredStatus (status : String)  -- 200 "Ignored status ..."
  | noPendingBooking                 -- 200 "No pending booking attached"
  | ok                               -- 200 "OK"
  | serverError                      -- 500 "Webhook error"
  deriving Repr, DecidableEq

/-- `POST /api/mollie-webhook` (src/api/index.js 832-858). -/
def mollieWebhook (st : PayState) (paymentId : Option String)
    (lookup : PaymentLookup) (book : BookResult) :
    WebhookResponse × PayState × List UpstreamCall :=
  if truthyS paymentId = false then (.missingPaymentId, st, [])
  else
    let pid := paymentId.getD ""
    if pid ∈ st.processedPayments then (.alreadyProcessed, st, [])
    else
      match lookup with
      | .threw => (.serverError, st, [.getPayment pid])
      | .notFound => (.paymentNotFound, st, [.getPayment pid])
      | .found p =>
        if p.status ≠ "paid" then (.ignoredStatus p.status, st, [.getPayment pid])
        else
          match mapGet st.pendingBookingsByPaymentId pid with
          | none => (.noPendingBooking, st, [.getPayment pid])
          | some _ =>
            match book with
            | .threw => (.serverError, st, [.getPayment pid, .book])
            | .ok =>
              (.ok,
               { st with processedPayments := setAdd st.processedPayments pid },
               [.getPayment pid, .book])

/-- The caller's `payment` object on `POST /api/create-booking`. -/
structure PaymentTerms where
  amount : Option Nat
  redirectUrl : Option String
  deriving Repr, DecidableEq

/-- The body of `POST /api/create-booking` (fields the handler reads). -/
structure CreateBookingRequest where
  serviceId : Option Int
  performerId : Option Int
  datetime : Option String
  date : Option String
  time : Option String
  clientData : Option ClientData
  payment : Option PaymentTerms
  deriving Repr, DecidableEq

/-- Outcome of `mollieClient.payments.create(...)`. -/
inductive MollieCreate
  | ok (checkoutUrl paymentId : String)
  | threw
  deriving Repr, DecidableEq

/-- Responses of `POST /api/create-booking`. -/
inductive CreateBookingResponse
  | missingServiceId                          -- 400
  | missingDatetime                           -- 400
  | missingClientData                         -- 400
  | mollieNotConfigured                       -- 500
  | paymentInitiated (checkoutUrl paymentId : String)
      -- 200 {payment_required:true, checkoutUrl, paymentId}
  | bookedDirect                              -- 200 {payment_required:false, ...}
  | serverError                               -- 500 (outer catch)
  deriving Repr, DecidableEq

/-- `datetime || (date && time ? date+'T'+time : undefined)` resolution. -/
def resolveBookingDateTime (req : CreateBookingRequest) : Option String :=
  if truthyS req.datetime then req.datetime
  else if truthyS req.date ∧ truthyS req.time then
    some (req.date.getD "" ++ "T" ++ req.time.getD "")
  else req.datetime

/-- `POST /api/create-booking` (src/api/index.js 1204-1292).  When payment
terms with a truthy `amount` and `redirectUrl` are present, no booking call is
made: a Mollie payment is created, the request is stored under the returned
payment id, and a checkout redirect is returned.  Otherwise the booking is
performed immediately (abstracted as one `.book` upstream interaction). -/
def createBooking (st : PayState) (req : CreateBookingRequest) (mollieConfigured : Bool)
    (mollieCreate : MollieCreate) (book : BookResult) :
    CreateBookingResponse × PayState × List UpstreamCall :=
  if truthyI req.serviceId = false then (.missingServiceId, st, [])
  else
    match resolveBookingDateTime req with
    | none => (.missingDatetime, st, [])
    | some bookingDateTime =>
      if bookingDateTime = "" then (.missingDatetime, st, [])
      else
        match req.clientData with
        | none => (.missingClientData, st, [])
        | some cd =>
          if truthyS cd.email = false ∨ truthyS cd.full_name = false then
            (.missingClientData, st, [])
          else
            let payGated := match req.payment with
              | some pt => truthyN pt.amount && truthyS pt.redirectUrl
              | none => false
            if payGated then
              if mollieConfigured = false then (.mollieNotConfigured, st, [])
              else
                match mollieCreate with
                | .threw => (.serverError, st, [.createPaymentSession])
                | .ok url pid =>
                  let newPending := mapSet st.pendingBookingsByPaymentId pid
                    ⟨req.serviceId.getD 0, req.performerId, bookingDateTime, cd⟩
                  (.paymentInitiated url pid,
                   { st with pendingBookingsByPaymentId := newPending },
                   [.createPaymentSession])
            else
              match book with
              | .threw => (.serverError, st, [.book])
              | .ok => (.bookedDirect, st, [.book])

/-! ### Calendar dates

The handler builds default dates with `new Date()` / `setDate(getDate()+30)` /
`toISOString().split('T')[0]`, validates caller dates with `new Date(s)` +
`isNaN`, and compares them as timestamps.  `CivilDate` embeds the calendar
day; `parseDate` models `new Date` on the `YYYY-MM-DD` strings this API works
with (anything else is modelled as an invalid date); `dateLtB` is the
timestamp comparison restricted to calendar days. -/

structure CivilDate where
  year : Nat
  month : Nat
  day : Nat
  deriving Repr, DecidableEq

def isLeap (y : Nat) : Bool := ((y % 4 == 0) && (y % 100 != 0)) || (y % 400 == 0)

def daysInMonth (y m : Nat) : Nat :=
  if m == 2 then (if isLeap y then 29 else 28)
  else if m == 4 || m == 6 || m == 9 || m == 11 then 30
  else 31

def nextDay (d : CivilDate) : CivilDate :=
  if d.day < daysInMonth d.year d.month then ⟨d.year, d.month, d.day + 1⟩
  else if d.month < 12 then ⟨d.year, d.month + 1, 1⟩
  else ⟨d.year + 1, 1, 1⟩

/-- JS `Date.prototype.setDate(getDate() + n)` as `n` single-day steps. -/
def addDays (d : CivilDate) : Nat → CivilDate
  | 0 => d
  | n + 1 => addDays (nextDay d) n

def pad2 (n : Nat) : String := if n < 10 then "0" ++ toString n else toString n

def pad4 (n : Nat) : String :=
  if n < 10 then "000" ++ toString n
  else if n < 100 then "00" ++ toString n
  else if n < 1000 then "0" ++ toString n
  else toString n

/-- `toISOString().split('T')[0]`: the `YYYY-MM-DD` rendering of a day. -/
def dateStr (d : CivilDate) : String :=
  pad4 d.year ++ "-" ++ pad2 d.month ++ "-" ++ pad2 d.day

def splitOnCharAux (c : Char) : List Char → List Char → List (List Char)
  | [], acc => [acc.reverse]
  | x :: xs, acc =>
    if x = c then acc.reverse :: splitOnCharAux c xs []
    else splitOnCharAux c xs (x :: acc)

/-- JS `String.prototype.split` with a single-character separator. -/
def splitOnChar (c : Char) (l : List Char) : List (List Char) := splitOnCharAux c l []

/-- Decimal digits to a number; `none` on empty input or a non-digit. -/
def digitsToNat : List Char → Option Nat
  | [] => none
  | l => l.foldl (fun acc c => match acc with
      | none => none
      | some n => if c.isDigit then some (n * 10 + (c.toNat - 48)) else none) (some 0)

/-- `new Date(s)` + `isNaN(getTime())` on the API's `YYYY-MM-DD` strings. -/
def parseDate (s : String) : Option CivilDate :=
  match splitOnChar '-' s.data with
  | [ys, ms, ds] =>
    if ys.length = 4 ∧ ms.length = 2 ∧ ds.length = 2 then
      match digitsToNat ys, digitsToNat ms, digitsToNat ds with
      | some y, some m, some d =>
        if 1 ≤ m ∧ m ≤ 12 ∧ 1 ≤ d ∧ d ≤ daysInMonth y m then some ⟨y, m, d⟩ else none
      | _, _, _ => none
    else none
  | _ => none

/-- Timestamp comparison of two calendar days (`fromDate > toDate` etc.). -/
def dateLtB (a b : CivilDate) : Bool :=
  decide (a.year < b.year)
    || (a.year == b.year
        && (decide (a.month < b.month) || (a.month == b.month && decide (a.day < b.day))))

/-! ### `getSlotsFromEvents` (src/api/index.js lines 523-583) -/

/-- Boolean form of the lexicographic string order (JS `>=`/`<=`). -/
def strLeB (a b : String) : Bool := listLeB a.data b.data

/-- `s.split('T')[0]`. -/
def splitT (s : String) : String := String.mk (s.data.takeWhile fun c => c ≠ 'T')

/-- First match of the regex `(\d{2}:\d{2})` in a string, if any. -/
def findTimeMatch : List Char → Option String
  | [] => none
  | c1 :: rest =>
    match rest with
    | c2 :: c3 :: c4 :: c5 :: _ =>
      if c1.isDigit && c2.isDigit && c3 == ':' && c4.isDigit && c5.isDigit then
        some (String.mk [c1, c2, c3, c4, c5])
      else findTimeMatch rest
    | _ => none

/-- An upstream event record, with each candidate field the source reads kept
separate.  Values are modelled post-`parseInt` for the id fields and as
strings for date/time fields (the `Date`-object branches for non-string
datetimes are outside the model). -/
structure RawEvent where
  id : Option Int
  event_id : Option Int
  service_id : Option Int
  date : Option String
  start_date : Option String
  occurrence_date : Option String
  start_time : Option String
  time : Option String
  start_datetime : Option String
  datetime : Option String
  deriving Repr, DecidableEq

/-- `event.id || event.event_id || event.service_id` (then `parseInt`). -/
def eventIdOf (e : RawEvent) : Option Int := jsOrI e.id (jsOrI e.event_id e.service_id)

/-- `event.date || event.start_date || event.occurrence_date`, falling back to
the date part of `event.start_datetime || event.datetime` when absent. -/
def derivedDate (e : RawEvent) : Option String :=
  let ed := jsOrS e.date (jsOrS e.start_date e.occurrence_date)
  if truthyS ed then ed
  else
    let dt := jsOrS e.start_datetime e.datetime
    if truthyS dt then some (splitT (dt.getD "")) else ed

/-- `event.start_time || event.time`, falling back to the first `HH:MM` match
inside `event.start_datetime || event.datetime` when absent. -/
def derivedTime (e : RawEvent) : Option String :=
  let et := jsOrS e.start_time e.time
  if truthyS et then et
  else
    let dt := jsOrS e.start_datetime e.datetime
    if truthyS dt then findTimeMatch (dt.getD "").data else et

/-- The filter of `getSlotsFromEvents`: the event id must equal the requested
service id, and the event date (split at `T`) must lie in the range. -/
def eventMatches (sid : Int) (dateFrom dateTo : String) (e : RawEvent) : Bool :=
  (match eventIdOf e with
   | some n => n == sid
   | none => false)
  && (let ed := derivedDate e
      if truthyS ed then
        let s := splitT (ed.getD "")
        strLeB dateFrom s && strLeB s dateTo
      else false)

/-- Insert a time under a date into the `timesMap`, skipping duplicates
(`if (!timesMap.get(dateStr).includes(timeStr))`). -/
def insertTimeEntry (m : List (String × List String)) (d t : String) :
    List (String × List String) :=
  if m.any fun p => p.1 = d then
    m.map fun p => if p.1 = d then (p.1, if t ∈ p.2 then p.2 else p.2 ++ [t]) else p
  else m ++ [(d, [t])]

/-- The extraction loop of `getSlotsFromEvents` over already-filtered events:
push `(date, time)` into the map when both are truthy. -/
def eventsToTimesMap (events : List RawEvent) : List (String × List String) :=
  events.foldl (fun m e =>
    let ed := derivedDate e
    let et := derivedTime e
    if truthyS ed ∧ truthyS et then
      insertTimeEntry m (splitT (ed.getD "")) (String.mk ((et.getD "").data.take 5))
    else m) []

/-- `getSlotsFromEvents`: filter events by id and date range, then build the
per-date time map (insertion-ordered, duplicates skipped). -/
def getSlotsFromEvents (sid : Int) (dateFrom dateTo : String) (events : List RawEvent) :
    List (String × List String) :=
  eventsToTimesMap (events.filter (eventMatches sid dateFrom dateTo))

/-! ### `POST /api/service-availability` (src/api/index.js lines 1048-1124) -/

/-- The request body fields the handler reads; `serviceId` is modelled
post-`parseInt`. -/
structure AvailRequest where
  serviceId : Option Int
  startDate : Option String
  endDate : Option String
  performerId : Option Int
  count : Option Nat
  deriving Repr, DecidableEq

/-- The environment of one request: the current date and the outcomes of the
upstream calls the handler may issue.  `matrix` is the `getStartTimeMatrix`
result object (`.error` = the call threw); `events` is the
`getEventListPublic` result (`.ok none` = the result is not an array). -/
structure AvailEnv where
  today : CivilDate
  login : LoginResult
  matrix : Except Unit (List (String × MatrixValue))
  events : Except Unit (Option (List RawEvent))

/-- Responses of `POST /api/service-availability`. -/
inductive AvailResponse
  | missingServiceId                 -- 400 "Service ID is required"
  | invalidDateFormat                -- 400 "Invalid date format. Use YYYY-MM-DD"
  | startAfterEnd                    -- 400 "Start date must be before end date"
  | serverError                      -- 500 (outer catch: token or fallback threw)
  | ok (dateFrom dateTo : String) (availability : List AvailWindow)
  deriving Repr, DecidableEq

/-- Ordering of availability entries by date
(`availability.sort((a, b) => a.date.localeCompare(b.date))`). -/
def wdLe (a b : AvailWindow) : Prop := strLe a.date b.date

instance wdLeDec : DecidableRel wdLe := fun a b =>
  inferInstanceAs (Decidable (listLeB a.date.data b.date.data = true))

instance : IsTotal AvailWindow wdLe := ⟨fun a b => listLeB_total a.date.data b.date.data⟩

instance : IsTrans AvailWindow wdLe :=
  ⟨fun a b c => listLeB_trans a.date.data b.date.data c.date.data⟩

def sortWindows (l : List AvailWindow) : List AvailWindow := List.insertionSort wdLe l

/-- `POST /api/service-availability`: require a service id; fetch the token
(before any date validation — a thrown token error is a 500); default the
range to `[today, today + 30 days]`; validate and order-check the dates; probe
`getStartTimeMatrix` (errors swallowed); if no dates came back, fall back to
the public event list (errors terminal); sort the result by date. -/
def serviceAvailability (st : TokenCache) (now : Nat) (req : AvailRequest) (env : AvailEnv) :
    AvailResponse × List UpstreamCall × TokenCache :=
  if truthyI req.serviceId = false then (.missingServiceId, [], st)
  else
    let sid := req.serviceId.getD 0
    match getSimplyBookTokenCached st now env.login with
    | (Except.error _, calls, st1) => (.serverError, calls, st1)
    | (Except.ok _, calls, st1) =>
      let dateFrom := if truthyS req.startDate then req.startDate.getD ""
                      else dateStr env.today
      let dateTo := if truthyS req.endDate then req.endDate.getD ""
                    else dateStr (addDays env.today 30)
      match parseDate dateFrom, parseDate dateTo with
      | some df, some dto =>
        if dateLtB dto df then (.startAfterEnd, calls, st1)
        else
          let calls1 := calls ++ [.startTimeMatrix dateFrom dateTo sid]
          let availability := match env.matrix with
            | Except.ok m => normalizeTimeMatrix m
            | Except.error _ => []
          if availability.isEmpty then
            match env.events with
            | Except.error _ =>
              (.serverError, calls1 ++ [.eventListPublic dateFrom dateTo], st1)
            | Except.ok none =>
              (.ok dateFrom dateTo [], calls1 ++ [.eventListPublic dateFrom dateTo], st1)
            | Except.ok (some evs) =>
              let tm := getSlotsFromEvents sid dateFrom dateTo evs
              let avail := tm.map fun p => AvailWindow.mk p.1 (sortStr p.2) p.2.length
              (.ok dateFrom dateTo (sortWindows avail),
               calls1 ++ [.eventListPublic dateFrom dateTo], st1)
          else (.ok dateFrom dateTo (sortWindows availability), calls1, st1)
      | _, _ => (.invalidDateFormat, calls, st1)

/-! ### Category aggregation (`POST /api/category-availability`,
src/api/index.js lines 1150-1185) -/

/-- Merge one member item's day into an existing aggregated day: append the
times not already present, re-sort, recount. -/
def mergeDay (w day : AvailWindow) : AvailWindow :=
  let newTimes := day.times.filter fun t => decide (t ∉ w.times)
  let merged := sortStr (w.times ++ newTimes)
  ⟨w.date, merged, merged.length⟩

/-- One step of the aggregation loop over `aggregatedAvailability`. -/
def catInsert (m : List AvailWindow) (day : AvailWindow) : List AvailWindow :=
  if m.any fun w => w.date = day.date then
    m.map fun w => if w.date = day.date then mergeDay w day else w
  else m ++ [day]

/-- The category aggregation: fold every member item's per-day availability
into the insertion-ordered map, then sort by date. -/
def aggregateAvailability (lists : List (List AvailWindow)) : List AvailWindow :=
  sortWindows (lists.flatten.foldl catInsert [])

/-- A date is present in an availability list. -/
def memDate (m : List AvailWindow) (d : String) : Prop := ∃ w ∈ m, w.date = d

/-- A time is recorded under a date in an availability list. -/
def memTime (m : List AvailWindow) (d t : String) : Prop :=
  ∃ w ∈ m, w.date = d ∧ t ∈ w.times

/-- Date-uniqueness of the aggregation map. -/
def datesNodup (m : List AvailWindow) : Prop := (m.map AvailWindow.date).Nodup

/-- A fallback event carrying only an id and a combined timestamp. -/
def eventSample : RawEvent :=
  ⟨some 7, none, none, none, none, none, none, none, some "2025-03-01T11:30:00", none⟩

/-- Environment whose primary start-time-matrix probe succeeds with one date. -/
def envPrimary : AvailEnv :=
  ⟨⟨2025, 6, 1⟩, .ok "tok",
   Except.ok [("2025-03-01", MatrixValue.arr [SlotEntry.str "09:00"])], Except.ok none⟩

/-- Environment whose primary probe throws and whose event fallback succeeds. -/
def envFallback : AvailEnv :=
  ⟨⟨2025, 6, 1⟩, .ok "tok", Except.error (), Except.ok (some [eventSample])⟩

/-- Environment where both the primary probe and the fallback throw. -/
def envBroken : AvailEnv :=
  ⟨⟨2025, 6, 1⟩, .ok "tok", Except.error (), Except.error ()⟩

/-- A concrete booking request used by witnesses and counterexamples. -/
def sampleBooking : BookingRequest :=
  ⟨5, none, "2025-03-01T09:00", ⟨some "ada@example.com", some "Ada"⟩⟩

/-! ## Theorems -/

theorem slotTimes_str_shape (ts : List String) :
    slotTimes (MatrixValue.arr (ts.map SlotEntry.str)) = ts.filter (fun t => t ≠ "") := by
  induction ts with
  | nil => rfl
  | cons t ts ih =>
    rw [show slotTimes (MatrixValue.arr ((t :: ts).map SlotEntry.str))
        = (if t = "" then slotTimes (MatrixValue.arr (ts.map SlotEntry.str))
           else t :: slotTimes (MatrixValue.arr (ts.map SlotEntry.str))) from rfl]
    by_cases h : t = "" <;> simp [h, ih]

theorem slotTimes_objTime_shape (ts : List String) :
    slotTimes (MatrixValue.arr (ts.map fun t => SlotEntry.obj (some t) none))
      = ts.filter (fun t => t ≠ "") := by
  induction ts with
  | nil => rfl
  | cons t ts ih =>
    have hunf : slotTimes (MatrixValue.arr ((t :: ts).map fun t => SlotEntry.obj (some t) none))
        = filterTruthy (entryTime (SlotEntry.obj (some t) none)
            :: ((ts.map fun t => SlotEntry.obj (some t) none).map entryTime)) := rfl
    by_cases h : t = ""
    · subst h
      rw [hunf, show entryTime (SlotEntry.obj (some "") none) = none from rfl]
      rw [show ∀ l, filterTruthy (none :: l) = filterTruthy l from fun l => rfl]
      show slotTimes (MatrixValue.arr (ts.map fun t => SlotEntry.obj (some t) none)) = _
      rw [ih]
      simp
    · have hent : entryTime (SlotEntry.obj (some t) none) = some t := by
        simp [entryTime, jsOrS, truthyS, h]
      rw [hunf, hent]
      rw [show ∀ s l, filterTruthy (some s :: l)
          = if s = "" then filterTruthy l else s :: filterTruthy l from fun s l => rfl]
      rw [if_neg h]
      show t :: slotTimes (MatrixValue.arr (ts.map fun t => SlotEntry.obj (some t) none)) = _
      rw [ih]
      simp [h]

theorem slotTimes_objStart_shape (ts : List String) :
    slotTimes (MatrixValue.arr (ts.map fun t => SlotEntry.obj none (some t)))
      = ts.filter (fun t => t ≠ "") := by
  induction ts with
  | nil => rfl
  | cons t ts ih =>
    have hunf : slotTimes (MatrixValue.arr ((t :: ts).map fun t => SlotEntry.obj none (some t)))
        = filterTruthy (some t
            :: ((ts.map fun t => SlotEntry.obj none (some t)).map entryTime)) := rfl
    rw [hunf]
    rw [show ∀ s l, filterTruthy (some s :: l)
        = if s = "" then filterTruthy l else s :: filterTruthy l from fun s l => rfl]
    by_cases h : t = ""
    · rw [if_pos h]
      show slotTimes (MatrixValue.arr (ts.map fun t => SlotEntry.obj none (some t))) = _
      rw [ih]
      simp [h]
    · rw [if_neg h]
      show t :: slotTimes (MatrixValue.arr (ts.map fun t => SlotEntry.obj none (some t))) = _
      rw [ih]
      simp [h]

theorem normalizeTimeMatrix_mem_spec (matrix : List (String × MatrixValue)) :
    ∀ w ∈ normalizeTimeMatrix matrix,
      List.Sorted strLe w.times ∧ w.times ≠ [] ∧
      ∃ p ∈ matrix, p.1 = w.date ∧ List.Perm w.times (slotTimes p.2) := by
  intro w hw
  simp only [normalizeTimeMatrix, List.mem_filterMap] at hw
  obtain ⟨p, hp, hf⟩ := hw
  by_cases h : (slotTimes p.2).length > 0
  · rw [if_pos h] at hf
    cases hf
    have hne : sortStr (slotTimes p.2) ≠ [] := by
      intro hnil
      have hlen := List.length_insertionSort strLe (slotTimes p.2)
      rw [show sortStr (slotTimes p.2) = List.insertionSort strLe (slotTimes p.2) from rfl] at hnil
      rw [hnil] at hlen
      simp at hlen
      omega
    exact ⟨List.sorted_insertionSort _ _, hne, p, hp, rfl, List.perm_insertionSort _ _⟩
  · rw [if_neg h] at hf
    cases hf


theorem truthyS_iff (o : Option String) : truthyS o = true ↔ ∃ s, o = some s ∧ s ≠ "" := by
  cases o <;> simp [truthyS]

theorem truthyN_iff (o : Option Nat) : truthyN o = true ↔ ∃ n, o = some n ∧ n ≠ 0 := by
  cases o <;> simp [truthyN]

theorem getToken_calls (st : TokenCache) (now : Nat) (login : LoginResult) :
    (getSimplyBookTokenCached st now login).2.1 = []
      ∨ (getSimplyBookTokenCached st now login).2.1 = [.login] := by
  unfold getSimplyBookTokenCached
  split
  · left; rfl
  · cases login
    · right; rfl
    · right; rfl

theorem mergeDay_date (w day : AvailWindow) : (mergeDay w day).date = w.date := rfl

theorem mergeDay_mem_times (w day : AvailWindow) (t : String) :
    t ∈ (mergeDay w day).times ↔ t ∈ w.times ∨ t ∈ day.times := by
  unfold mergeDay
  simp only [sortStr]
  rw [List.mem_insertionSort]
  simp only [List.mem_append, List.mem_filter, decide_eq_true_eq]
  by_cases h : t ∈ w.times <;> simp [h]

theorem catInsert_memDate (m : List AvailWindow) (day : AvailWindow) (d : String) :
    memDate (catInsert m day) d ↔ memDate m d ∨ day.date = d := by
  unfold catInsert
  split
  · rename_i hany
    have hex : ∃ w ∈ m, w.date = day.date := by
      simpa [List.any_eq_true] using hany
    constructor
    · rintro ⟨w, hw, hwd⟩
      simp only [List.mem_map] at hw
      obtain ⟨w0, hw0, rfl⟩ := hw
      by_cases h : w0.date = day.date
      · rw [if_pos h, mergeDay_date] at hwd
        exact Or.inl ⟨w0, hw0, hwd⟩
      · rw [if_neg h] at hwd
        exact Or.inl ⟨w0, hw0, hwd⟩
    · rintro (⟨w, hw, hwd⟩ | hd)
      · by_cases h : w.date = day.date
        · refine ⟨mergeDay w day, List.mem_map.mpr ⟨w, hw, by rw [if_pos h]⟩, ?_⟩
          rw [mergeDay_date]; exact hwd
        · exact ⟨w, List.mem_map.mpr ⟨w, hw, by rw [if_neg h]⟩, hwd⟩
      · obtain ⟨w0, hw0, hwd0⟩ := hex
        refine ⟨mergeDay w0 day, List.mem_map.mpr ⟨w0, hw0, by rw [if_pos hwd0]⟩, ?_⟩
        rw [mergeDay_date, hwd0, hd]
  · constructor
    · rintro ⟨w, hw, hwd⟩
      rcases List.mem_append.mp hw with h | h
      · exact Or.inl ⟨w, h, hwd⟩
      · simp only [List.mem_singleton] at h
        subst h
        exact Or.inr hwd
    · rintro (⟨w, hw, hwd⟩ | hd)
      · exact ⟨w, List.mem_append.mpr (Or.inl hw), hwd⟩
      · exact ⟨day, List.mem_append.mpr (Or.inr (by simp)), hd⟩

theorem catInsert_memTime (m : List AvailWindow) (day : AvailWindow) (d t : String) :
    memTime (catInsert m day) d t
      ↔ memTime m d t ∨ (day.date = d ∧ t ∈ day.times) := by
  unfold catInsert
  split
  · rename_i hany
    have hex : ∃ w ∈ m, w.date = day.date := by
      simpa [List.any_eq_true] using hany
    constructor
    · rintro ⟨w, hw, hwd, hwt⟩
      simp only [List.mem_map] at hw
      obtain ⟨w0, hw0, rfl⟩ := hw
      by_cases h : w0.date = day.date
      · rw [if_pos h] at hwd hwt
        rw [mergeDay_date] at hwd
        rcases (mergeDay_mem_times w0 day t).mp hwt with ht | ht
        · exact Or.inl ⟨w0, hw0, hwd, ht⟩
        · exact Or.inr ⟨by rw [← h, hwd], ht⟩
      · rw [if_neg h] at hwd hwt
        exact Or.inl ⟨w0, hw0, hwd, hwt⟩
    · rintro (⟨w, hw, hwd, hwt⟩ | ⟨hd, ht⟩)
      · by_cases h : w.date = day.date
        · refine ⟨mergeDay w day, List.mem_map.mpr ⟨w, hw, by rw [if_pos h]⟩, ?_, ?_⟩
          · rw [mergeDay_date]; exact hwd
          · exact (mergeDay_mem_times w day t).mpr (Or.inl hwt)
        · exact ⟨w, List.mem_map.mpr ⟨w, hw, by rw [if_neg h]⟩, hwd, hwt⟩
      · obtain ⟨w0, hw0, hwd0⟩ := hex
        refine ⟨mergeDay w0 day, List.mem_map.mpr ⟨w0, hw0, by rw [if_pos hwd0]⟩, ?_, ?_⟩
        · rw [mergeDay_date, hwd0, hd]
        · exact (mergeDay_mem_times w0 day t).mpr (Or.inr ht)
  · constructor
    · rintro ⟨w, hw, hwd, hwt⟩
      rcases List.mem_append.mp hw with h | h
      · exact Or.inl ⟨w, h, hwd, hwt⟩
      · simp only [List.mem_singleton] at h
        subst h
        exact Or.inr ⟨hwd, hwt⟩
    · rintro (⟨w, hw, hwd, hwt⟩ | ⟨hd, ht⟩)
      · exact ⟨w, List.mem_append.mpr (Or.inl hw), hwd, hwt⟩
      · exact ⟨day, List.mem_append.mpr (Or.inr (by simp)), hd, ht⟩

theorem foldl_catInsert_memDate (days : List AvailWindow) :
    ∀ (m : List AvailWindow) (d : String),
      memDate (days.foldl catInsert m) d ↔ memDate m d ∨ ∃ w ∈ days, w.date = d := by
  induction days with
  | nil => intro m d; simp [memDate]
  | cons day days ih =>
    intro m d
    rw [List.foldl_cons, ih, catInsert_memDate]
    simp only [List.mem_cons]
    constructor
    · rintro ((h | h) | ⟨w, hw, hwd⟩)
      · exact Or.inl h
      · exact Or.inr ⟨day, Or.inl rfl, h⟩
      · exact Or.inr ⟨w, Or.inr hw, hwd⟩
    · rintro (h | ⟨w, (rfl | hw), hwd⟩)
      · exact Or.inl (Or.inl h)
      · exact Or.inl (Or.inr hwd)
      · exact Or.inr ⟨w, hw, hwd⟩

theorem foldl_catInsert_memTime (days : List AvailWindow) :
    ∀ (m : List AvailWindow) (d t : String),
      memTime (days.foldl catInsert m) d t
        ↔ memTime m d t ∨ ∃ w ∈ days, w.date = d ∧ t ∈ w.times := by
  induction days with
  | nil => intro m d t; simp [memTime]
  | cons day days ih =>
    intro m d t
    rw [List.foldl_cons, ih, catInsert_memTime]
    simp only [List.mem_cons]
    constructor
    · rintro ((h | h) | ⟨w, hw, hwd⟩)
      · exact Or.inl h
      · exact Or.inr ⟨day, Or.inl rfl, h⟩
      · exact Or.inr ⟨w, Or.inr hw, hwd⟩
    · rintro (h | ⟨w, (rfl | hw), hwd⟩)
      · exact Or.inl (Or.inl h)
      · exact Or.inl (Or.inr hwd)
      · exact Or.inr ⟨w, hw, hwd⟩

theorem catInsert_datesNodup (m : List AvailWindow) (day : AvailWindow)
    (h : datesNodup m) : datesNodup (catInsert m day) := by
  unfold catInsert
  split
  · rename_i hany
    unfold datesNodup
    rw [List.map_map]
    have heq : (AvailWindow.date ∘ fun w =>
        if w.date = day.date then mergeDay w day else w) = AvailWindow.date := by
      funext w
      by_cases hw : w.date = day.date
      · simp [Function.comp, hw, mergeDay_date]
      · simp [Function.comp, hw]
    rw [heq]
    exact h
  · rename_i hany
    have hnone : ∀ w ∈ m, w.date ≠ day.date := by
      intro w hw
      intro hc
      exact hany (List.any_eq_true.mpr ⟨w, hw, by simp [hc]⟩)
    unfold datesNodup
    rw [List.map_append]
    simp only [List.map_cons, List.map_nil]
    rw [List.nodup_append]
    refine ⟨h, List.nodup_singleton _, ?_⟩
    intro a ha
    simp only [List.mem_map] at ha
    obtain ⟨w, hw, rfl⟩ := ha
    simp only [List.mem_singleton]
    exact hnone w hw

theorem foldl_catInsert_datesNodup (days : List AvailWindow) :
    ∀ m : List AvailWindow, datesNodup m → datesNodup (days.foldl catInsert m) := by
  induction days with
  | nil => intro m h; exact h
  | cons day days ih =>
    intro m h
    rw [List.foldl_cons]
    exact ih _ (catInsert_datesNodup m day h)

theorem mergeDay_good (w day : AvailWindow)
    (hw : w.times.Nodup) (hd : day.times.Nodup) :
    List.Sorted strLe (mergeDay w day).times ∧ (mergeDay w day).times.Nodup := by
  constructor
  · exact List.sorted_insertionSort strLe _
  · unfold mergeDay
    simp only [sortStr]
    apply ((List.perm_insertionSort strLe _).nodup_iff).mpr
    apply List.Nodup.append hw (hd.filter _)
    intro a ha hb
    simp only [List.mem_filter, decide_eq_true_eq] at hb
    exact hb.2 ha

theorem catInsert_good (m : List AvailWindow) (day : AvailWindow)
    (hm : ∀ w ∈ m, List.Sorted strLe w.times ∧ w.times.Nodup)
    (hd : List.Sorted strLe day.times ∧ day.times.Nodup) :
    ∀ w ∈ catInsert m day, List.Sorted strLe w.times ∧ w.times.Nodup := by
  unfold catInsert
  split
  · intro w hw
    simp only [List.mem_map] at hw
    obtain ⟨w0, hw0, rfl⟩ := hw
    by_cases h : w0.date = day.date
    · rw [if_pos h]
      exact mergeDay_good w0 day (hm w0 hw0).2 hd.2
    · rw [if_neg h]
      exact hm w0 hw0
  · intro w hw
    rcases List.mem_append.mp hw with h | h
    · exact hm w h
    · simp only [List.mem_singleton] at h
      subst h
      exact hd

theorem foldl_catInsert_good (days : List AvailWindow) :
    ∀ m : List AvailWindow,
      (∀ w ∈ m, List.Sorted strLe w.times ∧ w.times.Nodup) →
      (∀ w ∈ days, List.Sorted strLe w.times ∧ w.times.Nodup) →
      ∀ w ∈ days.foldl catInsert m, List.Sorted strLe w.times ∧ w.times.Nodup := by
  induction days with
  | nil => intro m hm _ w hw; exact hm w hw
  | cons day days ih =>
    intro m hm hdays
    rw [List.foldl_cons]
    exact ih _ (catInsert_good m day hm (hdays day (by simp)))
      (fun w hw => hdays w (by simp [hw]))

theorem mergeDay_nonempty (w day : AvailWindow) (hw : w.times ≠ []) :
    (mergeDay w day).times ≠ [] := by
  obtain ⟨t, ht⟩ := List.exists_mem_of_ne_nil _ hw
  have : t ∈ (mergeDay w day).times := (mergeDay_mem_times w day t).mpr (Or.inl ht)
  exact List.ne_nil_of_mem this

theorem catInsert_nonempty (m : List AvailWindow) (day : AvailWindow)
    (hm : ∀ w ∈ m, w.times ≠ []) (hd : day.times ≠ []) :
    ∀ w ∈ catInsert m day, w.times ≠ [] := by
  unfold catInsert
  split
  · intro w hw
    simp only [List.mem_map] at hw
    obtain ⟨w0, hw0, rfl⟩ := hw
    by_cases h : w0.date = day.date
    · rw [if_pos h]
      exact mergeDay_nonempty w0 day (hm w0 hw0)
    · rw [if_neg h]
      exact hm w0 hw0
  · intro w hw
    rcases List.mem_append.mp hw with h | h
    · exact hm w h
    · simp only [List.mem_singleton] at h
      subst h
      exact hd

theorem foldl_catInsert_nonempty (days : List AvailWindow) :
    ∀ m : List AvailWindow, (∀ w ∈ m, w.times ≠ []) → (∀ w ∈ days, w.times ≠ []) →
      ∀ w ∈ days.foldl catInsert m, w.times ≠ [] := by
  induction days with
  | nil => intro m hm _ w hw; exact hm w hw
  | cons day days ih =>
    intro m hm hdays
    rw [List.foldl_cons]
    exact ih _ (catInsert_nonempty m day hm (hdays day (by simp)))
      (fun w hw => hdays w (by simp [hw]))

theorem mem_setAdd_self (s : List String) (x : String) : x ∈ setAdd s x := by
  unfold setAdd
  split
  · assumption
  · simp

theorem mapGet_map_update (k : String) (v : BookingRequest) :
    ∀ m : List (String × BookingRequest), m.any (fun q => q.1 = k) = true →
      mapGet (m.map fun q => if q.1 = k then (k, v) else q) k = some v := by
  intro m
  induction m with
  | nil => simp
  | cons p m ih =>
    intro h
    by_cases hp : p.1 = k
    · simp [mapGet, List.find?, hp]
    · simp only [List.map_cons, if_neg hp]
      have hm : m.any (fun q => q.1 = k) = true := by
        simpa [List.any_cons, hp] using h
      rw [show mapGet (p :: m.map fun q => if q.1 = k then (k, v) else q) k
          = mapGet (m.map fun q => if q.1 = k then (k, v) else q) k from by
        simp [mapGet, List.find?_cons_of_neg, hp]]
      exact ih hm

theorem mapGet_append_new (k : String) (v : BookingRequest) :
    ∀ m : List (String × BookingRequest), m.any (fun q => q.1 = k) = false →
      mapGet (m ++ [(k, v)]) k = some v := by
  intro m
  induction m with
  | nil => intro _; simp [mapGet, List.find?]
  | cons p m ih =>
    intro h
    have hp : ¬ p.1 = k := by
      intro hk
      simp [List.any_cons, hk] at h
    have hm : m.any (fun q => q.1 = k) = false := by
      simpa [List.any_cons, hp] using h
    rw [show mapGet ((p :: m) ++ [(k, v)]) k = mapGet (m ++ [(k, v)]) k from by
      simp [mapGet, List.find?_cons_of_neg, hp]]
    exact ih hm

theorem mapGet_mapSet (k : String) (v : BookingRequest)
    (m : List (String × BookingRequest)) : mapGet (mapSet m k v) k = some v := by
  unfold mapSet
  split
  · exact mapGet_map_update k v m (by assumption)
  · rename_i h
    have hb : m.any (fun q => q.1 = k) = false := by
      cases hb : m.any (fun q => q.1 = k)
      · rfl
      · exact absurd hb h
    exact mapGet_append_new k v m hb

/-- C5 counterexample: the claim asserts the per-date result is deduplicated,
but `normalizeTimeMatrix` only sorts (`slots.sort()`); a per-date value
carrying the time `"09:00"` twice is returned with the duplicate intact. -/
theorem C5_dedup_counterexample :
    normalizeTimeMatrix
        [("2025-01-01", MatrixValue.arr [SlotEntry.str "09:00", SlotEntry.str "09:00"])]
      = [⟨"2025-01-01", ["09:00", "09:00"], 2⟩]
    ∧ ¬ List.Nodup ["09:00", "09:00"] :=
  ⟨by decide, by decide⟩

/-- C5 (amended): for every per-date value of the start-time matrix, whichever
tolerated shape it carries (array of time strings; array of objects bearing a
`time` or `start_time` field; nested object whose values are arrays), the
extraction yields the same time-string list — with empty/missing entries
filtered out — and the emitted per-date `times` is that list sorted ascending
(duplicates preserved, not deduplicated). -/
theorem C5_shape_invariance_amended :
    (∀ ts : List String,
        slotTimes (MatrixValue.arr (ts.map SlotEntry.str)) = ts.filter (fun t => t ≠ "")
      ∧ slotTimes (MatrixValue.arr (ts.map fun t => SlotEntry.obj (some t) none))
          = ts.filter (fun t => t ≠ "")
      ∧ slotTimes (MatrixValue.arr (ts.map fun t => SlotEntry.obj none (some t)))
          = ts.filter (fun t => t ≠ "")
      ∧ ∀ groups : List (List SlotEntry),
          slotTimes (MatrixValue.nested groups) = slotTimes (MatrixValue.arr groups.flatten))
    ∧ (∀ matrix : List (String × MatrixValue), ∀ w ∈ normalizeTimeMatrix matrix,
        List.Sorted strLe w.times ∧ w.times ≠ [] ∧
        ∃ p ∈ matrix, p.1 = w.date ∧ List.Perm w.times (slotTimes p.2)) :=
  ⟨fun ts => ⟨slotTimes_str_shape ts, slotTimes_objTime_shape ts, slotTimes_objStart_shape ts,
      fun _groups => rfl⟩,
    normalizeTimeMatrix_mem_spec⟩

/-- Witness for C5 (amended) at a concrete matrix and concrete shape inputs. -/
theorem C5_shape_invariance_amended_witness :
    slotTimes (MatrixValue.arr (["10:00", "", "09:00"].map SlotEntry.str))
        = ["10:00", "", "09:00"].filter (fun t => t ≠ "")
    ∧ slotTimes (MatrixValue.arr (["10:00", "", "09:00"].map fun t =>
          SlotEntry.obj (some t) none))
        = ["10:00", "", "09:00"].filter (fun t => t ≠ "")
    ∧ List.Sorted strLe
        ((⟨"2025-03-01", ["09:00", "10:00"], 2⟩ : AvailWindow).times)
    ∧ (⟨"2025-03-01", ["09:00", "10:00"], 2⟩ : AvailWindow).times ≠ [] :=
  ⟨(C5_shape_invariance_amended.1 ["10:00", "", "09:00"]).1,
   (C5_shape_invariance_amended.1 ["10:00", "", "09:00"]).2.1,
   (C5_shape_invariance_amended.2
      [("2025-03-01", MatrixValue.arr [SlotEntry.str "10:00", SlotEntry.str "09:00"])]
      ⟨"2025-03-01", ["09:00", "10:00"], 2⟩ (by decide)).1,
   (C5_shape_invariance_amended.2
      [("2025-03-01", MatrixValue.arr [SlotEntry.str "10:00", SlotEntry.str "09:00"])]
      ⟨"2025-03-01", ["09:00", "10:00"], 2⟩ (by decide)).2.1⟩

/-- C4: the token cache returns a valid cached token without an upstream
login; otherwise it performs one login call, on success stores the token with
a fresh timestamp and returns it, and on failure caches nothing (the next call
retries).  Consequently two calls within the TTL window after one successful
login produce exactly one upstream login call in total. -/
theorem C4_token_cache :
    (∀ (st : TokenCache) (now : Nat) (login : LoginResult) (tok : String),
        st.token = some tok → tok ≠ "" → now - st.fetchedAt < st.ttlMs →
        getSimplyBookTokenCached st now login = (Except.ok tok, [], st))
  ∧ (∀ (st : TokenCache) (now : Nat) (t : String),
        ¬ (truthyS st.token = true ∧ now - st.fetchedAt < st.ttlMs) →
        getSimplyBookTokenCached st now (.ok t)
          = (Except.ok t, [.login], ⟨some t, now, st.ttlMs⟩))
  ∧ (∀ (st : TokenCache) (now : Nat),
        ¬ (truthyS st.token = true ∧ now - st.fetchedAt < st.ttlMs) →
        getSimplyBookTokenCached st now .fail = (Except.error (), [.login], st))
  ∧ (∀ (st : TokenCache) (now₀ now₁ : Nat) (t : String) (login₁ : LoginResult),
        ¬ (truthyS st.token = true ∧ now₀ - st.fetchedAt < st.ttlMs) →
        t ≠ "" → now₁ - now₀ < st.ttlMs →
        (getSimplyBookTokenCached st now₀ (.ok t)).2.1 = [.login]
        ∧ getSimplyBookTokenCached ((getSimplyBookTokenCached st now₀ (.ok t)).2.2) now₁ login₁
            = (Except.ok t, [], (getSimplyBookTokenCached st now₀ (.ok t)).2.2)) := by
  have hmiss : ∀ (st : TokenCache) (now : Nat) (t : String),
      ¬ (truthyS st.token = true ∧ now - st.fetchedAt < st.ttlMs) →
      getSimplyBookTokenCached st now (.ok t)
        = (Except.ok t, [.login], ⟨some t, now, st.ttlMs⟩) := by
    intro st now t h
    unfold getSimplyBookTokenCached
    rw [if_neg h]
  have hhit : ∀ (st : TokenCache) (now : Nat) (login : LoginResult) (tok : String),
      st.token = some tok → tok ≠ "" → now - st.fetchedAt < st.ttlMs →
      getSimplyBookTokenCached st now login = (Except.ok tok, [], st) := by
    intro st now login tok hT htok hlt
    unfold getSimplyBookTokenCached
    rw [if_pos ⟨by simp [truthyS, hT, htok], hlt⟩, hT]
    rfl
  refine ⟨hhit, hmiss, ?_, ?_⟩
  · intro st now h
    unfold getSimplyBookTokenCached
    rw [if_neg h]
  · intro st now₀ now₁ t login₁ h ht hlt
    rw [hmiss st now₀ t h]
    exact ⟨rfl, hhit _ now₁ login₁ t rfl ht hlt⟩

/-- Witness for C4 at a concrete state: cold cache at time 1000, second call at
time 2000 is served from the cache with no further login call. -/
theorem C4_token_cache_witness :
    (getSimplyBookTokenCached initialTokenCache 1000 (LoginResult.ok "tok")).2.1
        = [UpstreamCall.login]
    ∧ getSimplyBookTokenCached
          ((getSimplyBookTokenCached initialTokenCache 1000 (LoginResult.ok "tok")).2.2) 2000
          LoginResult.fail
        = (Except.ok "tok", [],
            (getSimplyBookTokenCached initialTokenCache 1000 (LoginResult.ok "tok")).2.2) :=
  C4_token_cache.2.2.2 initialTokenCache 1000 2000 "tok" LoginResult.fail
    (by decide) (by decide) (by decide)

/-- C1: with a paid payment and a pending booking attached, finalizing twice
performs exactly one upstream booking call — the first call books, marks the
payment id processed and reports success; the second short-circuits on the
processed-payment set and reports success flagged already-processed with no
upstream call at all. -/
theorem C1_finalize_idempotent (st : PayState) (pid : String) (br : BookingRequest)
    (lookup₂ : PaymentLookup) (book₂ : BookResult)
    (hpid : pid ≠ "") (hproc : pid ∉ st.processedPayments)
    (hpend : mapGet st.pendingBookingsByPaymentId pid = some br) :
    (finalizeBookingAfterPayment st (some pid) (.found ⟨"paid"⟩) .ok).1 = .booked
  ∧ (finalizeBookingAfterPayment st (some pid) (.found ⟨"paid"⟩) .ok).2.2
      = [.getPayment pid, .book]
  ∧ pid ∈ ((finalizeBookingAfterPayment st (some pid) (.found ⟨"paid"⟩) .ok).2.1).processedPayments
  ∧ finalizeBookingAfterPayment
        ((finalizeBookingAfterPayment st (some pid) (.found ⟨"paid"⟩) .ok).2.1)
        (some pid) lookup₂ book₂
      = (.alreadyProcessed,
         (finalizeBookingAfterPayment st (some pid) (.found ⟨"paid"⟩) .ok).2.1, [])
  ∧ List.count UpstreamCall.book
        ((finalizeBookingAfterPayment st (some pid) (.found ⟨"paid"⟩) .ok).2.2
          ++ (finalizeBookingAfterPayment
                ((finalizeBookingAfterPayment st (some pid) (.found ⟨"paid"⟩) .ok).2.1)
                (some pid) lookup₂ book₂).2.2) = 1 := by
  have h1 : finalizeBookingAfterPayment st (some pid) (.found ⟨"paid"⟩) .ok
      = (.booked, { st with processedPayments := setAdd st.processedPayments pid },
         [.getPayment pid, .book]) := by
    unfold finalizeBookingAfterPayment
    simp [truthyS, hpid, hproc, hpend]
  have hmem : pid ∈ setAdd st.processedPayments pid := mem_setAdd_self _ _
  have h2 : finalizeBookingAfterPayment
      { st with processedPayments := setAdd st.processedPayments pid }
      (some pid) lookup₂ book₂
      = (.alreadyProcessed,
         { st with processedPayments := setAdd st.processedPayments pid }, []) := by
    unfold finalizeBookingAfterPayment
    simp [truthyS, hpid, hmem]
  rw [h1]
  refine ⟨rfl, rfl, hmem, ?_, ?_⟩
  · simpa using h2
  · rw [show ((FinalizeResponse.booked,
        { st with processedPayments := setAdd st.processedPayments pid },
        [UpstreamCall.getPayment pid, UpstreamCall.book]) :
        FinalizeResponse × PayState × List UpstreamCall).2.1
      = { st with processedPayments := setAdd st.processedPayments pid } from rfl]
    rw [h2]
    simp [List.count_cons]

/-- Witness for C1 at a concrete state and payment id. -/
theorem C1_finalize_idempotent_witness :
    (finalizeBookingAfterPayment ⟨[("tr_1", sampleBooking)], []⟩ (some "tr_1")
        (.found ⟨"paid"⟩) .ok).1 = .booked
  ∧ (finalizeBookingAfterPayment ⟨[("tr_1", sampleBooking)], []⟩ (some "tr_1")
        (.found ⟨"paid"⟩) .ok).2.2 = [.getPayment "tr_1", .book]
  ∧ "tr_1" ∈ ((finalizeBookingAfterPayment ⟨[("tr_1", sampleBooking)], []⟩ (some "tr_1")
        (.found ⟨"paid"⟩) .ok).2.1).processedPayments
  ∧ finalizeBookingAfterPayment
        ((finalizeBookingAfterPayment ⟨[("tr_1", sampleBooking)], []⟩ (some "tr_1")
            (.found ⟨"paid"⟩) .ok).2.1)
        (some "tr_1") PaymentLookup.threw BookResult.threw
      = (.alreadyProcessed,
         (finalizeBookingAfterPayment ⟨[("tr_1", sampleBooking)], []⟩ (some "tr_1")
            (.found ⟨"paid"⟩) .ok).2.1, [])
  ∧ List.count UpstreamCall.book
        ((finalizeBookingAfterPayment ⟨[("tr_1", sampleBooking)], []⟩ (some "tr_1")
            (.found ⟨"paid"⟩) .ok).2.2
          ++ (finalizeBookingAfterPayment
                ((finalizeBookingAfterPayment ⟨[("tr_1", sampleBooking)], []⟩ (some "tr_1")
                    (.found ⟨"paid"⟩) .ok).2.1)
                (some "tr_1") PaymentLookup.threw BookResult.threw).2.2) = 1 :=
  C1_finalize_idempotent ⟨[("tr_1", sampleBooking)], []⟩ "tr_1" sampleBooking
    PaymentLookup.threw BookResult.threw (by decide) (by decide) (by decide)

/-- C3 counterexample: after a successful payment confirmation the pending
booking record is NOT removed — the finalize handler never calls
`pendingBookingsByPaymentId.delete`, so the map still contains the entry. -/
theorem C3_pending_not_discarded_counterexample :
    (finalizeBookingAfterPayment ⟨[("tr_3", sampleBooking)], []⟩ (some "tr_3")
        (.found ⟨"paid"⟩) .ok).1 = .booked
  ∧ "tr_3" ∈ ((finalizeBookingAfterPayment ⟨[("tr_3", sampleBooking)], []⟩ (some "tr_3")
        (.found ⟨"paid"⟩) .ok).2.1).processedPayments
  ∧ mapGet ((finalizeBookingAfterPayment ⟨[("tr_3", sampleBooking)], []⟩ (some "tr_3")
        (.found ⟨"paid"⟩) .ok).2.1).pendingBookingsByPaymentId "tr_3"
      = some sampleBooking :=
  ⟨by decide, by decide, by decide⟩

/-- C3 (amended): on successful confirmation (webhook or finalize) the payment
id is added to the processed-payment set, but the pending-bookings map is left
unchanged — the pending record is never discarded; idempotency rests solely on
the processed-payment set. -/
theorem C3_pending_retained_amended (st : PayState) (pid : String) (br : BookingRequest)
    (hpid : pid ≠ "") (hproc : pid ∉ st.processedPayments)
    (hpend : mapGet st.pendingBookingsByPaymentId pid = some br) :
    ((finalizeBookingAfterPayment st (some pid) (.found ⟨"paid"⟩) .ok).2.1
        = { st with processedPayments := setAdd st.processedPayments pid })
  ∧ ((mollieWebhook st (some pid) (.found ⟨"paid"⟩) .ok).2.1
        = { st with processedPayments := setAdd st.processedPayments pid })
  ∧ pid ∈ setAdd st.processedPayments pid
  ∧ ((finalizeBookingAfterPayment st (some pid)
        (.found ⟨"paid"⟩) .ok).2.1).pendingBookingsByPaymentId
      = st.pendingBookingsByPaymentId := by
  have h1 : finalizeBookingAfterPayment st (some pid) (.found ⟨"paid"⟩) .ok
      = (.booked, { st with processedPayments := setAdd st.processedPayments pid },
         [.getPayment pid, .book]) := by
    unfold finalizeBookingAfterPayment
    simp [truthyS, hpid, hproc, hpend]
  have h2 : mollieWebhook st (some pid) (.found ⟨"paid"⟩) .ok
      = (.ok, { st with processedPayments := setAdd st.processedPayments pid },
         [.getPayment pid, .book]) := by
    unfold mollieWebhook
    simp [truthyS, hpid, hproc, hpend]
  rw [h1, h2]
  exact ⟨rfl, rfl, mem_setAdd_self _ _, rfl⟩

/-- Witness for C3 (amended) at a concrete state and payment id. -/
theorem C3_pending_retained_amended_witness :
    ((finalizeBookingAfterPayment ⟨[("tr_5", sampleBooking)], []⟩ (some "tr_5")
        (.found ⟨"paid"⟩) .ok).2.1
      = { (⟨[("tr_5", sampleBooking)], []⟩ : PayState) with
            processedPayments := setAdd [] "tr_5" })
  ∧ ((mollieWebhook ⟨[("tr_5", sampleBooking)], []⟩ (some "tr_5")
        (.found ⟨"paid"⟩) .ok).2.1
      = { (⟨[("tr_5", sampleBooking)], []⟩ : PayState) with
            processedPayments := setAdd [] "tr_5" })
  ∧ "tr_5" ∈ setAdd [] "tr_5"
  ∧ ((finalizeBookingAfterPayment ⟨[("tr_5", sampleBooking)], []⟩ (some "tr_5")
        (.found ⟨"paid"⟩) .ok).2.1).pendingBookingsByPaymentId
      = [("tr_5", sampleBooking)] :=
  C3_pending_retained_amended ⟨[("tr_5", sampleBooking)], []⟩ "tr_5" sampleBooking
    (by decide) (by decide) (by decide)

/-- C10: in both confirmation handlers a payment id is marked processed only
after the upstream booking call returns; if the booking throws, the handler
responds 500 and both the processed-payment set and the pending-bookings map
are left exactly as before, so a redelivery or repeated finalize re-attempts
the booking instead of being swallowed as already processed. -/
theorem C10_booking_failure_not_marked (st : PayState) (pid : String) (br : BookingRequest)
    (hpid : pid ≠ "") (hproc : pid ∉ st.processedPayments)
    (hpend : mapGet st.pendingBookingsByPaymentId pid = some br) :
    mollieWebhook st (some pid) (.found ⟨"paid"⟩) .threw
      = (.serverError, st, [.getPayment pid, .book])
  ∧ finalizeBookingAfterPayment st (some pid) (.found ⟨"paid"⟩) .threw
      = (.serverError, st, [.getPayment pid, .book])
  ∧ (mollieWebhook st (some pid) (.found ⟨"paid"⟩) .ok).1 = .ok
  ∧ UpstreamCall.book ∈ (mollieWebhook st (some pid) (.found ⟨"paid"⟩) .ok).2.2
  ∧ (finalizeBookingAfterPayment st (some pid) (.found ⟨"paid"⟩) .ok).1 = .booked
  ∧ UpstreamCall.book ∈ (finalizeBookingAfterPayment st (some pid)
        (.found ⟨"paid"⟩) .ok).2.2 := by
  have hw : mollieWebhook st (some pid) (.found ⟨"paid"⟩) .threw
      = (.serverError, st, [.getPayment pid, .book]) := by
    unfold mollieWebhook
    simp [truthyS, hpid, hproc, hpend]
  have hf : finalizeBookingAfterPayment st (some pid) (.found ⟨"paid"⟩) .threw
      = (.serverError, st, [.getPayment pid, .book]) := by
    unfold finalizeBookingAfterPayment
    simp [truthyS, hpid, hproc, hpend]
  have hw2 : mollieWebhook st (some pid) (.found ⟨"paid"⟩) .ok
      = (.ok, { st with processedPayments := setAdd st.processedPayments pid },
         [.getPayment pid, .book]) := by
    unfold mollieWebhook
    simp [truthyS, hpid, hproc, hpend]
  have hf2 : finalizeBookingAfterPayment st (some pid) (.found ⟨"paid"⟩) .ok
      = (.booked, { st with processedPayments := setAdd st.processedPayments pid },
         [.getPayment pid, .book]) := by
    unfold finalizeBookingAfterPayment
    simp [truthyS, hpid, hproc, hpend]
  rw [hw, hf, hw2, hf2]
  refine ⟨rfl, rfl, rfl, by simp, rfl, by simp⟩

/-- Witness for C10 at a concrete state and payment id. -/
theorem C10_booking_failure_not_marked_witness :
    mollieWebhook ⟨[("tr_4", sampleBooking)], []⟩ (some "tr_4") (.found ⟨"paid"⟩) .threw
      = (.serverError, ⟨[("tr_4", sampleBooking)], []⟩, [.getPayment "tr_4", .book])
  ∧ finalizeBookingAfterPayment ⟨[("tr_4", sampleBooking)], []⟩ (some "tr_4")
        (.found ⟨"paid"⟩) .threw
      = (.serverError, ⟨[("tr_4", sampleBooking)], []⟩, [.getPayment "tr_4", .book])
  ∧ (mollieWebhook ⟨[("tr_4", sampleBooking)], []⟩ (some "tr_4")
        (.found ⟨"paid"⟩) .ok).1 = .ok
  ∧ UpstreamCall.book ∈ (mollieWebhook ⟨[("tr_4", sampleBooking)], []⟩ (some "tr_4")
        (.found ⟨"paid"⟩) .ok).2.2
  ∧ (finalizeBookingAfterPayment ⟨[("tr_4", sampleBooking)], []⟩ (some "tr_4")
        (.found ⟨"paid"⟩) .ok).1 = .booked
  ∧ UpstreamCall.book ∈ (finalizeBookingAfterPayment ⟨[("tr_4", sampleBooking)], []⟩
        (some "tr_4") (.found ⟨"paid"⟩) .ok).2.2 :=
  C10_booking_failure_not_marked ⟨[("tr_4", sampleBooking)], []⟩ "tr_4" sampleBooking
    (by decide) (by decide) (by decide)

/-- C8: a create-booking request carrying payment terms (truthy amount and
redirect URL) makes no upstream booking call — it creates one external payment
session, stores the pending booking request under the returned payment id, and
responds payment-required with the checkout URL and payment id; the booking
call happens only in a later confirmation step once that payment id is paid
(and not when its status is anything other than `paid`). -/
theorem C8_payment_gated (st : PayState) (req : CreateBookingRequest) (cd : ClientData)
    (sid : Int) (pt : PaymentTerms) (dt url pid : String) (book : BookResult)
    (hsid : req.serviceId = some sid) (hsid0 : sid ≠ 0)
    (hdt : req.datetime = some dt) (hdtne : dt ≠ "")
    (hcd : req.clientData = some cd) (hemail : truthyS cd.email = true)
    (hname : truthyS cd.full_name = true)
    (hpay : req.payment = some pt) (hamt : truthyN pt.amount = true)
    (hurl : truthyS pt.redirectUrl = true)
    (hpid : pid ≠ "") (hproc : pid ∉ st.processedPayments) :
    createBooking st req true (.ok url pid) book
      = (.paymentInitiated url pid,
         { st with pendingBookingsByPaymentId :=
             mapSet st.pendingBookingsByPaymentId pid ⟨sid, req.performerId, dt, cd⟩ },
         [.createPaymentSession])
  ∧ UpstreamCall.book ∉ (createBooking st req true (.ok url pid) book).2.2
  ∧ mapGet ((createBooking st req true (.ok url pid) book).2.1).pendingBookingsByPaymentId pid
      = some ⟨sid, req.performerId, dt, cd⟩
  ∧ (finalizeBookingAfterPayment (createBooking st req true (.ok url pid) book).2.1
        (some pid) (.found ⟨"paid"⟩) .ok).1 = .booked
  ∧ UpstreamCall.book ∈ (finalizeBookingAfterPayment
        (createBooking st req true (.ok url pid) book).2.1
        (some pid) (.found ⟨"paid"⟩) .ok).2.2
  ∧ (∀ s, s ≠ "paid" →
      (finalizeBookingAfterPayment (createBooking st req true (.ok url pid) book).2.1
          (some pid) (.found ⟨s⟩) .ok).1 = .paymentNotPaid s
      ∧ UpstreamCall.book ∉ (finalizeBookingAfterPayment
            (createBooking st req true (.ok url pid) book).2.1
            (some pid) (.found ⟨s⟩) .ok).2.2) := by
  have hc : createBooking st req true (.ok url pid) book
      = (.paymentInitiated url pid,
         { st with pendingBookingsByPaymentId :=
             mapSet st.pendingBookingsByPaymentId pid ⟨sid, req.performerId, dt, cd⟩ },
         [.createPaymentSession]) := by
    obtain ⟨em, hem, hemne⟩ := (truthyS_iff _).mp hemail
    obtain ⟨nm, hnm, hnmne⟩ := (truthyS_iff _).mp hname
    obtain ⟨ru, hru, hrune⟩ := (truthyS_iff _).mp hurl
    obtain ⟨am, ham, hamne⟩ := (truthyN_iff _).mp hamt
    unfold createBooking resolveBookingDateTime
    simp [truthyS, truthyI, truthyN, hsid, hsid0, hdt, hdtne, hcd, hem, hemne, hnm, hnmne,
      hpay, ham, hamne, hru, hrune]
  have hpend : mapGet (mapSet st.pendingBookingsByPaymentId pid
      ⟨sid, req.performerId, dt, cd⟩) pid = some ⟨sid, req.performerId, dt, cd⟩ :=
    mapGet_mapSet _ _ _
  have hfin : finalizeBookingAfterPayment
      { st with pendingBookingsByPaymentId :=
          mapSet st.pendingBookingsByPaymentId pid ⟨sid, req.performerId, dt, cd⟩ }
      (some pid) (.found ⟨"paid"⟩) .ok
      = (.booked,
         { st with
             pendingBookingsByPaymentId :=
               mapSet st.pendingBookingsByPaymentId pid ⟨sid, req.performerId, dt, cd⟩,
             processedPayments := setAdd st.processedPayments pid },
         [.getPayment pid, .book]) := by
    unfold finalizeBookingAfterPayment
    simp [truthyS, hpid, hproc, hpend]
  rw [hc]
  refine ⟨rfl, by simp, hpend, ?_, ?_, ?_⟩
  · rw [show ((CreateBookingResponse.paymentInitiated url pid,
        { st with pendingBookingsByPaymentId :=
            mapSet st.pendingBookingsByPaymentId pid ⟨sid, req.performerId, dt, cd⟩ },
        [UpstreamCall.createPaymentSession]) :
        CreateBookingResponse × PayState × List UpstreamCall).2.1
      = { st with pendingBookingsByPaymentId :=
            mapSet st.pendingBookingsByPaymentId pid ⟨sid, req.performerId, dt, cd⟩ } from rfl]
    rw [hfin]
  · rw [show ((CreateBookingResponse.paymentInitiated url pid,
        { st with pendingBookingsByPaymentId :=
            mapSet st.pendingBookingsByPaymentId pid ⟨sid, req.performerId, dt, cd⟩ },
        [UpstreamCall.createPaymentSession]) :
        CreateBookingResponse × PayState × List UpstreamCall).2.1
      = { st with pendingBookingsByPaymentId :=
            mapSet st.pendingBookingsByPaymentId pid ⟨sid, req.performerId, dt, cd⟩ } from rfl]
    rw [hfin]
    simp
  · intro s hs
    have hfin2 : finalizeBookingAfterPayment
        { st with pendingBookingsByPaymentId :=
            mapSet st.pendingBookingsByPaymentId pid ⟨sid, req.performerId, dt, cd⟩ }
        (some pid) (.found ⟨s⟩) .ok
        = (.paymentNotPaid s,
           { st with pendingBookingsByPaymentId :=
               mapSet st.pendingBookingsByPaymentId pid ⟨sid, req.performerId, dt, cd⟩ },
           [.getPayment pid]) := by
      unfold finalizeBookingAfterPayment
      simp [truthyS, hpid, hproc, hs]
    constructor
    · rw [show ((CreateBookingResponse.paymentInitiated url pid,
          { st with pendingBookingsByPaymentId :=
              mapSet st.pendingBookingsByPaymentId pid ⟨sid, req.performerId, dt, cd⟩ },
          [UpstreamCall.createPaymentSession]) :
          CreateBookingResponse × PayState × List UpstreamCall).2.1
        = { st with pendingBookingsByPaymentId :=
              mapSet st.pendingBookingsByPaymentId pid ⟨sid, req.performerId, dt, cd⟩ } from rfl]
      rw [hfin2]
    · rw [show ((CreateBookingResponse.paymentInitiated url pid,
          { st with pendingBookingsByPaymentId :=
              mapSet st.pendingBookingsByPaymentId pid ⟨sid, req.performerId, dt, cd⟩ },
          [UpstreamCall.createPaymentSession]) :
          CreateBookingResponse × PayState × List UpstreamCall).2.1
        = { st with pendingBookingsByPaymentId :=
              mapSet st.pendingBookingsByPaymentId pid ⟨sid, req.performerId, dt, cd⟩ } from rfl]
      rw [hfin2]
      simp

/-- A concrete payment-gated create-booking request for the C8 witness. -/
def sampleCreateRequest : CreateBookingRequest :=
  ⟨some 5, none, some "2025-03-01T09:00", none, none,
   some ⟨some "ada@example.com", some "Ada"⟩,
   some ⟨some 49, some "https://shop.example/return"⟩⟩

/-- Witness for C8 at a concrete request, state and payment session. -/
theorem C8_payment_gated_witness :
    createBooking ⟨[], []⟩ sampleCreateRequest true (.ok "https://pay.example/c" "tr_8")
        BookResult.threw
      = (.paymentInitiated "https://pay.example/c" "tr_8",
         ⟨mapSet [] "tr_8"
            ⟨5, none, "2025-03-01T09:00", ⟨some "ada@example.com", some "Ada"⟩⟩, []⟩,
         [.createPaymentSession])
  ∧ UpstreamCall.book ∉ (createBooking ⟨[], []⟩ sampleCreateRequest true
        (.ok "https://pay.example/c" "tr_8") BookResult.threw).2.2
  ∧ mapGet ((createBooking ⟨[], []⟩ sampleCreateRequest true
        (.ok "https://pay.example/c" "tr_8")
        BookResult.threw).2.1).pendingBookingsByPaymentId "tr_8"
      = some ⟨5, none, "2025-03-01T09:00", ⟨some "ada@example.com", some "Ada"⟩⟩
  ∧ (finalizeBookingAfterPayment (createBooking ⟨[], []⟩ sampleCreateRequest true
        (.ok "https://pay.example/c" "tr_8") BookResult.threw).2.1
        (some "tr_8") (.found ⟨"paid"⟩) .ok).1 = .booked
  ∧ UpstreamCall.book ∈ (finalizeBookingAfterPayment
        (createBooking ⟨[], []⟩ sampleCreateRequest true
          (.ok "https://pay.example/c" "tr_8") BookResult.threw).2.1
        (some "tr_8") (.found ⟨"paid"⟩) .ok).2.2
  ∧ ((finalizeBookingAfterPayment (createBooking ⟨[], []⟩ sampleCreateRequest true
          (.ok "https://pay.example/c" "tr_8") BookResult.threw).2.1
          (some "tr_8") (.found ⟨"open"⟩) .ok).1 = .paymentNotPaid "open"
      ∧ UpstreamCall.book ∉ (finalizeBookingAfterPayment
            (createBooking ⟨[], []⟩ sampleCreateRequest true
              (.ok "https://pay.example/c" "tr_8") BookResult.threw).2.1
            (some "tr_8") (.found ⟨"open"⟩) .ok).2.2) := by
  have h := C8_payment_gated ⟨[], []⟩ sampleCreateRequest
    ⟨some "ada@example.com", some "Ada"⟩ 5 ⟨some 49, some "https://shop.example/return"⟩
    "2025-03-01T09:00" "https://pay.example/c" "tr_8" BookResult.threw
    (by decide) (by decide) (by decide) (by decide) (by decide) (by decide) (by decide)
    (by decide) (by decide) (by decide) (by decide) (by decide)
  exact ⟨h.1, h.2.1, h.2.2.1, h.2.2.2.1, h.2.2.2.2.1, h.2.2.2.2.2 "open" (by decide)⟩

/-- C2 counterexample: with an expired/empty token cache, a request whose
`startDate` is after its `endDate` is rejected 400 — but only after the token
login upstream call has already been issued (the handler fetches the token at
line 1053, before the date validation at lines 1068-1076). -/
theorem C2_validation_counterexample :
    (serviceAvailability initialTokenCache 1000
        ⟨some 5, some "2025-01-02", some "2025-01-01", none, none⟩
        ⟨⟨2025, 6, 1⟩, .ok "tok", Except.ok [], Except.ok none⟩).1
      = .startAfterEnd
  ∧ (serviceAvailability initialTokenCache 1000
        ⟨some 5, some "2025-01-02", some "2025-01-01", none, none⟩
        ⟨⟨2025, 6, 1⟩, .ok "tok", Except.ok [], Except.ok none⟩).2.1
      = [.login]
  ∧ ([UpstreamCall.login] : List UpstreamCall) ≠ [] :=
  ⟨by decide, by decide, by decide⟩

/-- C2 (amended): with both dates supplied and `dateFrom` after `dateTo`, the
handler (once the token step yields a token) responds 400 and issues no
availability upstream call — every call in the trace is the token login, which
may occur before the rejection when the cache is cold. -/
theorem C2_validation_amended (st : TokenCache) (now : Nat) (req : AvailRequest)
    (env : AvailEnv) (sid : Int) (f t tok : String) (df dto : CivilDate)
    (hsid : req.serviceId = some sid) (hsid0 : sid ≠ 0)
    (hf : req.startDate = some f) (hfne : f ≠ "")
    (ht : req.endDate = some t) (htne : t ≠ "")
    (hpf : parseDate f = some df) (hpt : parseDate t = some dto)
    (hlt : dateLtB dto df = true)
    (htok : (getSimplyBookTokenCached st now env.login).1 = Except.ok tok) :
    (serviceAvailability st now req env).1 = .startAfterEnd
  ∧ (∀ c ∈ (serviceAvailability st now req env).2.1, c = .login) := by
  rcases hp : getSimplyBookTokenCached st now env.login with ⟨r, calls, st1⟩
  have hr : r = Except.ok tok := by rw [hp] at htok; exact htok
  subst hr
  have hcalls : calls = [] ∨ calls = [.login] := by
    have h := getToken_calls st now env.login
    rw [hp] at h
    exact h
  have hmain : serviceAvailability st now req env = (.startAfterEnd, calls, st1) := by
    unfold serviceAvailability
    rw [hp]
    simp [truthyI, truthyS, hsid, hsid0, hf, hfne, ht, htne, hpf, hpt, hlt]
  rw [hmain]
  refine ⟨rfl, ?_⟩
  intro c hc
  rcases hcalls with h | h <;> rw [h] at hc
  · cases hc
  · simpa using hc

/-- Witness for C2 (amended) with a warm token cache: the rejection then
happens with an empty trace. -/
theorem C2_validation_amended_witness :
    (serviceAvailability ⟨some "tok", 500, 1000 * 60 * 50⟩ 1000
        ⟨some 5, some "2025-01-02", some "2025-01-01", none, none⟩
        ⟨⟨2025, 6, 1⟩, .fail, Except.ok [], Except.ok none⟩).1
      = .startAfterEnd
  ∧ (∀ c ∈ (serviceAvailability ⟨some "tok", 500, 1000 * 60 * 50⟩ 1000
        ⟨some 5, some "2025-01-02", some "2025-01-01", none, none⟩
        ⟨⟨2025, 6, 1⟩, .fail, Except.ok [], Except.ok none⟩).2.1, c = .login) :=
  C2_validation_amended ⟨some "tok", 500, 1000 * 60 * 50⟩ 1000
    ⟨some 5, some "2025-01-02", some "2025-01-01", none, none⟩
    ⟨⟨2025, 6, 1⟩, .fail, Except.ok [], Except.ok none⟩
    5 "2025-01-02" "2025-01-01" "tok" ⟨2025, 1, 2⟩ ⟨2025, 1, 1⟩
    (by decide) (by decide) (by decide) (by decide) (by decide) (by decide)
    (by decide) (by decide) (by decide) rfl

/-- C7: the fallback chain of the availability resolver.  With a valid request
and token: (1) when the primary start-time-matrix probe succeeds with at least
one date, the resolver answers from it and never issues the event-list
fallback call; (2) when the primary probe throws or yields zero dates, the
error is swallowed and the public event list is consulted for the same range;
(3) an error on the fallback is terminal and surfaces as a 500 failure.
Moreover the fallback keeps only events whose identifier matches the requested
item and derives `(date, time)` from the combined timestamp field when the
separate date/time fields are absent. -/
theorem C7_fallback_chain (st : TokenCache) (now : Nat) (req : AvailRequest) (env : AvailEnv)
    (sid : Int) (f t tok : String) (df dto : CivilDate)
    (hsid : req.serviceId = some sid) (hsid0 : sid ≠ 0)
    (hf : req.startDate = some f) (hfne : f ≠ "")
    (ht : req.endDate = some t) (htne : t ≠ "")
    (hpf : parseDate f = some df) (hpt : parseDate t = some dto)
    (hnlt : dateLtB dto df = false)
    (htok : (getSimplyBookTokenCached st now env.login).1 = Except.ok tok) :
    (∀ m, env.matrix = Except.ok m → normalizeTimeMatrix m ≠ [] →
        serviceAvailability st now req env
          = (.ok f t (sortWindows (normalizeTimeMatrix m)),
             (getSimplyBookTokenCached st now env.login).2.1
               ++ [.startTimeMatrix f t sid],
             (getSimplyBookTokenCached st now env.login).2.2)
        ∧ ∀ c ∈ (serviceAvailability st now req env).2.1, ∀ a b, c ≠ .eventListPublic a b)
  ∧ (∀ evs, env.events = Except.ok (some evs) →
        (env.matrix = Except.error ()
          ∨ ∃ m, env.matrix = Except.ok m ∧ normalizeTimeMatrix m = []) →
        serviceAvailability st now req env
          = (.ok f t (sortWindows ((getSlotsFromEvents sid f t evs).map
                fun p => AvailWindow.mk p.1 (sortStr p.2) p.2.length)),
             (getSimplyBookTokenCached st now env.login).2.1
               ++ [.startTimeMatrix f t sid, .eventListPublic f t],
             (getSimplyBookTokenCached st now env.login).2.2))
  ∧ (env.events = Except.error () →
        (env.matrix = Except.error ()
          ∨ ∃ m, env.matrix = Except.ok m ∧ normalizeTimeMatrix m = []) →
        (serviceAvailability st now req env).1 = .serverError)
  ∧ getSlotsFromEvents 7 "2025-03-01" "2025-03-05" [eventSample]
      = [("2025-03-01", ["11:30"])]
  ∧ getSlotsFromEvents 8 "2025-03-01" "2025-03-05" [eventSample] = [] := by
  rcases hp : getSimplyBookTokenCached st now env.login with ⟨r, calls, st1⟩
  have hr : r = Except.ok tok := by rw [hp] at htok; exact htok
  subst hr
  have hcalls : calls = [] ∨ calls = [.login] := by
    have h := getToken_calls st now env.login
    rw [hp] at h
    exact h
  refine ⟨?_, ?_, ?_, by decide, by decide⟩
  · intro m hm hne
    have hmain : serviceAvailability st now req env
        = (.ok f t (sortWindows (normalizeTimeMatrix m)),
           calls ++ [.startTimeMatrix f t sid], st1) := by
      unfold serviceAvailability
      rw [hp]
      simp [truthyI, truthyS, hsid, hsid0, hf, hfne, ht, htne, hpf, hpt, hnlt, hm,
        List.isEmpty_iff, hne]
    refine ⟨hmain, ?_⟩
    rw [hmain]
    intro c hc a b
    simp only [List.mem_append] at hc
    rcases hc with hc | hc
    · rcases hcalls with h | h <;> rw [h] at hc
      · cases hc
      · simp only [List.mem_singleton] at hc
        subst hc
        intro hcontra
        cases hcontra
    · simp only [List.mem_singleton] at hc
      subst hc
      intro hcontra
      cases hcontra
  · intro evs hevs hmat
    have hmain : serviceAvailability st now req env
        = (.ok f t (sortWindows ((getSlotsFromEvents sid f t evs).map
              fun p => AvailWindow.mk p.1 (sortStr p.2) p.2.length)),
           calls ++ [.startTimeMatrix f t sid, .eventListPublic f t], st1) := by
      unfold serviceAvailability
      rw [hp]
      rcases hmat with h | ⟨m, hm, hne⟩
      · simp [truthyI, truthyS, hsid, hsid0, hf, hfne, ht, htne, hpf, hpt, hnlt, h, hevs]
      · simp [truthyI, truthyS, hsid, hsid0, hf, hfne, ht, htne, hpf, hpt, hnlt, hm, hne,
          hevs]
    exact hmain
  · intro hevs hmat
    have hmain : (serviceAvailability st now req env).1 = .serverError := by
      unfold serviceAvailability
      rw [hp]
      rcases hmat with h | ⟨m, hm, hne⟩
      · simp [truthyI, truthyS, hsid, hsid0, hf, hfne, ht, htne, hpf, hpt, hnlt, h, hevs]
      · simp [truthyI, truthyS, hsid, hsid0, hf, hfne, ht, htne, hpf, hpt, hnlt, hm, hne,
          hevs]
    exact hmain

/-- Witness for C7 at concrete requests: the primary path answers without the
fallback call; the fallback path answers from the event list; both probes
failing yields a 500. -/
theorem C7_fallback_chain_witness :
    serviceAvailability initialTokenCache 1000
        ⟨some 7, some "2025-03-01", some "2025-03-05", none, none⟩ envPrimary
      = (.ok "2025-03-01" "2025-03-05"
           (sortWindows (normalizeTimeMatrix
             [("2025-03-01", MatrixValue.arr [SlotEntry.str "09:00"])])),
         (getSimplyBookTokenCached initialTokenCache 1000 envPrimary.login).2.1
           ++ [.startTimeMatrix "2025-03-01" "2025-03-05" 7],
         (getSimplyBookTokenCached initialTokenCache 1000 envPrimary.login).2.2)
  ∧ serviceAvailability initialTokenCache 1000
        ⟨some 7, some "2025-03-01", some "2025-03-05", none, none⟩ envFallback
      = (.ok "2025-03-01" "2025-03-05"
           (sortWindows ((getSlotsFromEvents 7 "2025-03-01" "2025-03-05" [eventSample]).map
             fun p => AvailWindow.mk p.1 (sortStr p.2) p.2.length)),
         (getSimplyBookTokenCached initialTokenCache 1000 envFallback.login).2.1
           ++ [.startTimeMatrix "2025-03-01" "2025-03-05" 7,
               .eventListPublic "2025-03-01" "2025-03-05"],
         (getSimplyBookTokenCached initialTokenCache 1000 envFallback.login).2.2)
  ∧ (serviceAvailability initialTokenCache 1000
        ⟨some 7, some "2025-03-01", some "2025-03-05", none, none⟩ envBroken).1
      = .serverError :=
  ⟨(C7_fallback_chain initialTokenCache 1000
      ⟨some 7, some "2025-03-01", some "2025-03-05", none, none⟩ envPrimary
      7 "2025-03-01" "2025-03-05" "tok" ⟨2025, 3, 1⟩ ⟨2025, 3, 5⟩
      (by decide) (by decide) (by decide) (by decide) (by decide) (by decide)
      (by decide) (by decide) (by decide) rfl).1
      [("2025-03-01", MatrixValue.arr [SlotEntry.str "09:00"])] rfl (by decide) |>.1,
   (C7_fallback_chain initialTokenCache 1000
      ⟨some 7, some "2025-03-01", some "2025-03-05", none, none⟩ envFallback
      7 "2025-03-01" "2025-03-05" "tok" ⟨2025, 3, 1⟩ ⟨2025, 3, 5⟩
      (by decide) (by decide) (by decide) (by decide) (by decide) (by decide)
      (by decide) (by decide) (by decide) rfl).2.1
      [eventSample] rfl (Or.inl rfl),
   (C7_fallback_chain initialTokenCache 1000
      ⟨some 7, some "2025-03-01", some "2025-03-05", none, none⟩ envBroken
      7 "2025-03-01" "2025-03-05" "tok" ⟨2025, 3, 1⟩ ⟨2025, 3, 5⟩
      (by decide) (by decide) (by decide) (by decide) (by decide) (by decide)
      (by decide) (by decide) (by decide) rfl).2.2.1
      rfl (Or.inl rfl)⟩

/-- C9 counterexample: with `dateTo` omitted, a request on 2025-06-01 with
`dateFrom = "2025-01-01"` resolves the end of the range to `"2025-07-01"`
(today + 30 days), not `"2025-01-15"` (`dateFrom` + 14 days). -/
theorem C9_date_default_counterexample :
    (serviceAvailability initialTokenCache 1000
        ⟨some 5, some "2025-01-01", none, none, none⟩
        ⟨⟨2025, 6, 1⟩, .ok "tok",
         Except.ok [("2025-06-15", MatrixValue.arr [SlotEntry.str "09:00"])],
         Except.ok none⟩).1
      = .ok "2025-01-01" "2025-07-01" [⟨"2025-06-15", ["09:00"], 1⟩]
  ∧ ("2025-07-01" : String) ≠ "2025-01-15" :=
  ⟨by decide, by decide⟩

/-- C9 (amended): when `dateTo` is omitted the handler defaults the end of the
range to the current date plus 30 days — independent of `dateFrom`. -/
theorem C9_date_default_amended (st : TokenCache) (now : Nat) (req : AvailRequest)
    (env : AvailEnv) (sid : Int) (f tok : String) (df dto : CivilDate)
    (m : List (String × MatrixValue))
    (hsid : req.serviceId = some sid) (hsid0 : sid ≠ 0)
    (hf : req.startDate = some f) (hfne : f ≠ "")
    (hend : req.endDate = none)
    (hpf : parseDate f = some df)
    (hpt : parseDate (dateStr (addDays env.today 30)) = some dto)
    (hnlt : dateLtB dto df = false)
    (htok : (getSimplyBookTokenCached st now env.login).1 = Except.ok tok)
    (hm : env.matrix = Except.ok m)
    (hne : normalizeTimeMatrix m ≠ []) :
    (serviceAvailability st now req env).1
      = .ok f (dateStr (addDays env.today 30)) (sortWindows (normalizeTimeMatrix m)) := by
  rcases hp : getSimplyBookTokenCached st now env.login with ⟨r, calls, st1⟩
  have hr : r = Except.ok tok := by rw [hp] at htok; exact htok
  subst hr
  have hmain : serviceAvailability st now req env
      = (.ok f (dateStr (addDays env.today 30)) (sortWindows (normalizeTimeMatrix m)),
         calls ++ [.startTimeMatrix f (dateStr (addDays env.today 30)) sid], st1) := by
    unfold serviceAvailability
    rw [hp]
    simp [truthyI, truthyS, hsid, hsid0, hf, hfne, hend, hpf, hpt, hnlt, hm,
      List.isEmpty_iff, hne]
  rw [hmain]

/-- Witness for C9 (amended) at a concrete clock and request. -/
theorem C9_date_default_amended_witness :
    (serviceAvailability initialTokenCache 1000
        ⟨some 5, some "2025-01-01", none, none, none⟩
        ⟨⟨2025, 6, 1⟩, .ok "tok",
         Except.ok [("2025-06-15", MatrixValue.arr [SlotEntry.str "09:00"])],
         Except.ok none⟩).1
      = .ok "2025-01-01" (dateStr (addDays ⟨2025, 6, 1⟩ 30))
          (sortWindows (normalizeTimeMatrix
            [("2025-06-15", MatrixValue.arr [SlotEntry.str "09:00"])])) :=
  C9_date_default_amended initialTokenCache 1000
    ⟨some 5, some "2025-01-01", none, none, none⟩
    ⟨⟨2025, 6, 1⟩, .ok "tok",
     Except.ok [("2025-06-15", MatrixValue.arr [SlotEntry.str "09:00"])],
     Except.ok none⟩
    5 "2025-01-01" "tok" ⟨2025, 1, 1⟩ ⟨2025, 7, 1⟩
    [("2025-06-15", MatrixValue.arr [SlotEntry.str "09:00"])]
    (by decide) (by decide) (by decide) (by decide) (by decide) (by decide)
    (by decide) (by decide) rfl rfl (by decide)

/-- C6 counterexample: the claim says the per-date list is the deduplicated
union, but a single member item whose upstream matrix repeats a time keeps the
duplicate through the category aggregation. -/
theorem C6_dedup_counterexample :
    aggregateAvailability
        [normalizeTimeMatrix
          [("2025-01-10", MatrixValue.arr [SlotEntry.str "09:00", SlotEntry.str "09:00"])]]
      = [⟨"2025-01-10", ["09:00", "09:00"], 2⟩]
  ∧ ¬ List.Nodup ["09:00", "09:00"] :=
  ⟨by decide, by decide⟩

/-- C6 (amended): category availability is a union, not an intersection — a
date is reported exactly when at least one member item reports a window on
that date (with A only on 2025-01-10 and B only on 2025-01-12 both dates are
included), and a time appears in the per-date list exactly when some member
item carries it on that date.  When each member item's own per-date list is
sorted and duplicate-free (and non-empty, as both producers guarantee), the
aggregated per-date list is the deduplicated ascending sorted union; duplicates
inside a single item's list, however, are preserved. -/
theorem C6_category_union_amended :
    (∀ (lists : List (List AvailWindow)) (d : String),
        (∃ w ∈ aggregateAvailability lists, w.date = d)
          ↔ ∃ l ∈ lists, ∃ w ∈ l, w.date = d)
  ∧ (∀ (lists : List (List AvailWindow)), ∀ w ∈ aggregateAvailability lists, ∀ t,
        t ∈ w.times ↔ ∃ l ∈ lists, ∃ w2 ∈ l, w2.date = w.date ∧ t ∈ w2.times)
  ∧ (∀ (lists : List (List AvailWindow)),
        (∀ l ∈ lists, ∀ w ∈ l, List.Sorted strLe w.times ∧ w.times.Nodup) →
        ∀ w ∈ aggregateAvailability lists, List.Sorted strLe w.times ∧ w.times.Nodup)
  ∧ (∀ (lists : List (List AvailWindow)),
        (∀ l ∈ lists, ∀ w ∈ l, w.times ≠ []) →
        ∀ w ∈ aggregateAvailability lists, w.times ≠ [])
  ∧ aggregateAvailability [[⟨"2025-01-10", ["09:00"], 1⟩], [⟨"2025-01-12", ["10:00"], 1⟩]]
      = [⟨"2025-01-10", ["09:00"], 1⟩, ⟨"2025-01-12", ["10:00"], 1⟩] := by
  have hperm : ∀ lists : List (List AvailWindow),
      List.Perm (aggregateAvailability lists) (lists.flatten.foldl catInsert []) := by
    intro lists
    exact List.perm_insertionSort wdLe _
  have hflat : ∀ (lists : List (List AvailWindow)) (P : AvailWindow → Prop),
      (∃ w ∈ lists.flatten, P w) ↔ ∃ l ∈ lists, ∃ w ∈ l, P w := by
    intro lists P
    constructor
    · rintro ⟨w, hw, hP⟩
      obtain ⟨l, hl, hwl⟩ := List.mem_flatten.mp hw
      exact ⟨l, hl, w, hwl, hP⟩
    · rintro ⟨l, hl, w, hwl, hP⟩
      exact ⟨w, List.mem_flatten.mpr ⟨l, hl, hwl⟩, hP⟩
  refine ⟨?_, ?_, ?_, ?_, by decide⟩
  · intro lists d
    have h1 : (∃ w ∈ aggregateAvailability lists, w.date = d)
        ↔ memDate (lists.flatten.foldl catInsert []) d := by
      unfold memDate
      constructor
      · rintro ⟨w, hw, hd⟩
        exact ⟨w, ((hperm lists).mem_iff).mp hw, hd⟩
      · rintro ⟨w, hw, hd⟩
        exact ⟨w, ((hperm lists).mem_iff).mpr hw, hd⟩
    rw [h1, foldl_catInsert_memDate]
    simp only [memDate, List.not_mem_nil, false_and, exists_false, exists_and_left,
      false_or]
    exact hflat lists (fun w => w.date = d)
  · intro lists w hw t
    have hwf : w ∈ lists.flatten.foldl catInsert [] := ((hperm lists).mem_iff).mp hw
    have hnd : datesNodup (lists.flatten.foldl catInsert []) :=
      foldl_catInsert_datesNodup _ [] (by simp [datesNodup])
    constructor
    · intro ht
      have hmt : memTime (lists.flatten.foldl catInsert []) w.date t :=
        ⟨w, hwf, rfl, ht⟩
      rw [foldl_catInsert_memTime] at hmt
      rcases hmt with h | h
      · obtain ⟨w0, hw0, _⟩ := h
        cases hw0
      · exact (hflat lists (fun w2 => w2.date = w.date ∧ t ∈ w2.times)).mp h
    · intro h
      have hmt : memTime (lists.flatten.foldl catInsert []) w.date t := by
        rw [foldl_catInsert_memTime]
        exact Or.inr ((hflat lists (fun w2 => w2.date = w.date ∧ t ∈ w2.times)).mpr h)
      obtain ⟨w2, hw2, hd2, ht2⟩ := hmt
      have : w2 = w :=
        List.inj_on_of_nodup_map hnd hw2 hwf hd2
      subst this
      exact ht2
  · intro lists hgood w hw
    have hwf : w ∈ lists.flatten.foldl catInsert [] := ((hperm lists).mem_iff).mp hw
    refine foldl_catInsert_good _ [] (by simp) ?_ w hwf
    intro w0 hw0
    obtain ⟨l, hl, hwl⟩ := List.mem_flatten.mp hw0
    exact hgood l hl w0 hwl
  · intro lists hne w hw
    have hwf : w ∈ lists.flatten.foldl catInsert [] := ((hperm lists).mem_iff).mp hw
    refine foldl_catInsert_nonempty _ [] (by simp) ?_ w hwf
    intro w0 hw0
    obtain ⟨l, hl, hwl⟩ := List.mem_flatten.mp hw0
    exact hne l hl w0 hwl

/-- Witness for C6 (amended) at a concrete member-item list. -/
theorem C6_category_union_amended_witness :
    (List.Sorted strLe ((⟨"2025-01-10", ["09:00", "10:00"], 2⟩ : AvailWindow).times)
      ∧ (⟨"2025-01-10", ["09:00", "10:00"], 2⟩ : AvailWindow).times.Nodup)
  ∧ (⟨"2025-01-10", ["09:00", "10:00"], 2⟩ : AvailWindow).times ≠ [] :=
  ⟨C6_category_union_amended.2.2.1 [[⟨"2025-01-10", ["09:00", "10:00"], 2⟩]]
      (by decide) ⟨"2025-01-10", ["09:00", "10:00"], 2⟩ (by decide),
   C6_category_union_amended.2.2.2.1 [[⟨"2025-01-10", ["09:00", "10:00"], 2⟩]]
      (by decide) ⟨"2025-01-10", ["09:00", "10:00"], 2⟩ (by decide)⟩

end Booking
